import Mathlib

/-! Signaling dispatcher of `server/main.go`.

A shallow embedding of `Server.Send`, `Server.dispatch` and `main`.  The peer-connection
engine (`datachan`, `webrtc`), the JSON library and the `signaling` package are
collaborators of the dispatcher: their results are supplied by a `World` of
outcomes, and every call the dispatcher makes on them is recorded in an effect
trace.  The message codec, which is not part of `main.go`, is modelled from the
specification of its wire shape.
-/

namespace Rtcdc

/-- Raw bytes exchanged with the signaling transport (`[]byte`). -/
abbrev Bytes := List UInt8

/-- Identity of a `*datachan.Connection` (the pointer value). -/
abbrev Handle := Nat

/-- Session description of the engine, with the two fields shown at `main.go:104-107`. -/
structure SessionDescription where
  type : String
  sdp : String
  deriving DecidableEq, Repr

/-- ICE candidate of the engine, with the fields read at `main.go:123-125`. -/
structure IceCandidate where
  candidate : String
  sdpMid : String
  sdpMLineIndex : Int
  deriving DecidableEq, Repr

/-- Payload values switched on at `main.go:67`: `*signaling.Request`, `*signaling.Offer`,
`*signaling.Answer`, `*signaling.Candidate`. -/
inductive Payload where
  | request
  | offer (description : String)
  | answer (description : String)
  | candidate (candidate : String) (sdpMid : String) (sdpMLineIndex : Int)
  deriving DecidableEq, Repr

/-- Modelled from the spec: the `signaling.Message` envelope, whose declaration is not part
of `main.go`.  `Sender`, `To` and `Value` are the fields `dispatch` reads; `Kind` is the
explicit payload kind of the wire shape. -/
structure Message where
  Sender : String
  To : String
  Kind : String
  Value : String
  deriving DecidableEq, Repr

/-- Modelled from the spec: the envelope built by `signaling.New(sender, to, v)` before it is
marshalled: sender, recipient and the payload value. -/
structure Envelope where
  sender : String
  recipient : String
  payload : Payload
  deriving DecidableEq, Repr

/-- Result of `json.Unmarshal(b, &m)` for `m : *signaling.Message`: an error, no error with
`m` still nil, or no error with a message object. -/
inductive Unmarshalled where
  | err
  | nilMessage
  | message (m : Message)
  deriving DecidableEq, Repr

/-- Log lines written by `Send` and `dispatch`, one constructor per `log` call site. -/
inductive LogLine where
  | unmarshalError
  | getError
  | recv
  | datachanNewFailed
  | offerFailed
  | sendFailed
  | offerCompleted
  | connectionFailed
  | deserializeSdpFailed
  | answerSetFailed
  | ices
  | candidate
  | candidateSendError
  | addIceFailed
  deriving DecidableEq, Repr

/-- Effects of `Send` and `dispatch` observable outside the registry. -/
inductive Event where
  | log (l : LogLine)
  | close (h : Handle)
  | datachanNew (result : Option Handle)
  | onDataChannel (h : Handle)
  | offer (h : Handle)
  | send (recipient : String) (v : Payload)
  | clientSend (b : Bytes)
  | setRemoteDescription (h : Handle) (d : SessionDescription)
  | iceCandidates (h : Handle)
  | addIceCandidate (h : Handle) (c : IceCandidate)
  | sleep
  deriving DecidableEq, Repr

/-- Outcomes of the calls `dispatch` makes outside `main.go`.  `clientSend` tells whether the
transport delivers the bytes handed to `s.Client.Send`; `main.go:45` reads no result of that
call. -/
structure World where
  unmarshal : Bytes → Unmarshalled
  get : Message → Option Payload
  datachanNew : Option Handle
  offer : Handle → Option SessionDescription
  serialize : SessionDescription → String
  marshal : Envelope → Option Bytes
  clientSend : Bytes → Bool
  deserializeSessionDescription : String → Option SessionDescription
  setRemoteDescription : Handle → SessionDescription → Bool
  iceCandidates : Handle → List IceCandidate
  deserializeIceCandidate : String → Option IceCandidate
  addIceCandidate : Handle → IceCandidate → Bool

/-- The `members` map of `Server`: peer identity to connection handle. -/
abbrev Registry := List (String × Handle)

/-- Map read `s.members[k]`. -/
def Registry.find (r : Registry) (k : String) : Option Handle :=
  r.lookup k

/-- Map removal `delete(s.members, k)`. -/
def Registry.delete (r : Registry) (k : String) : Registry :=
  r.filter (fun e => e.1 ≠ k)

/-- Map write `s.members[k] = h`. -/
def Registry.insert (r : Registry) (k : String) (h : Handle) : Registry :=
  (k, h) :: r.delete k

/-- The `Server` of `main.go:24`: the local identity of the embedded client and the
registry. -/
structure Server where
  id : String
  members : Registry
  deriving DecidableEq, Repr

/-- How a call of `dispatch` ends: it returns, or it dereferences a nil pointer. -/
inductive Outcome where
  | returned
  | panicked
  deriving DecidableEq, Repr

/-- Registry, effect trace and outcome of one `dispatch` call. -/
structure Result where
  members : Registry
  trace : List Event
  outcome : Outcome
  deriving DecidableEq, Repr

/-- Modelled from the spec: `signaling.New`, which is not part of `main.go`; it wraps sender,
recipient and payload into the envelope. -/
def signalingNew (sender recipient : String) (v : Payload) : Envelope :=
  ⟨sender, recipient, v⟩

/-- The method `Server.Send` (`main.go:38-47`): the effects and whether it returned nil. -/
def Send (w : World) (s : Server) (recipient : String) (v : Payload) : List Event × Bool :=
  match w.marshal (signalingNew s.id recipient v) with
  | none => ([Event.send recipient v], false)
  | some b => ([Event.send recipient v, Event.clientSend b], true)

/-- The candidate loop of `dispatch` (`main.go:121-133`). -/
def sendCandidates (w : World) (s : Server) (recipient : String) : List IceCandidate → List Event
  | [] => []
  | ice :: rest =>
    match Send w s recipient (Payload.candidate ice.candidate ice.sdpMid ice.sdpMLineIndex) with
    | (evs, false) => Event.log LogLine.candidate :: evs ++ [Event.log LogLine.candidateSendError]
    | (evs, true) =>
      Event.log LogLine.candidate :: evs ++ Event.sleep :: sendCandidates w s recipient rest

/-- The `*signaling.Request` case (`main.go:68-93`). -/
def dispatchRequest (w : World) (s : Server) (m : Message) : Result :=
  let pre : List Event :=
    Event.log LogLine.recv ::
      (match s.members.find m.Sender with
        | some old => [Event.close old]
        | none => [])
  match w.datachanNew with
  | none =>
    ⟨s.members.delete m.Sender,
      pre ++ [Event.datachanNew none, Event.log LogLine.datachanNewFailed], Outcome.returned⟩
  | some conn =>
    match w.offer conn with
    | none =>
      ⟨s.members.delete m.Sender,
        pre ++ [Event.datachanNew (some conn), Event.onDataChannel conn, Event.offer conn,
          Event.log LogLine.offerFailed], Outcome.returned⟩
    | some sdp =>
      match Send w s m.Sender (Payload.offer (w.serialize sdp)) with
      | (evs, false) =>
        ⟨s.members.delete m.Sender,
          pre ++ (Event.datachanNew (some conn) :: Event.onDataChannel conn ::
            Event.offer conn :: (evs ++ [Event.log LogLine.sendFailed])), Outcome.returned⟩
      | (evs, true) =>
        ⟨s.members.insert m.Sender conn,
          pre ++ (Event.datachanNew (some conn) :: Event.onDataChannel conn ::
            Event.offer conn :: (evs ++ [Event.log LogLine.offerCompleted])), Outcome.returned⟩

/-- The `*signaling.Answer` case (`main.go:96-133`). -/
def dispatchAnswer (w : World) (s : Server) (m : Message) (description : String) : Result :=
  match s.members.find m.Sender with
  | none =>
    ⟨s.members, [Event.log LogLine.recv, Event.log LogLine.connectionFailed], Outcome.returned⟩
  | some conn =>
    match w.deserializeSessionDescription description with
    | none =>
      ⟨s.members, [Event.log LogLine.recv, Event.log LogLine.deserializeSdpFailed],
        Outcome.returned⟩
    | some sdp =>
      if w.setRemoteDescription conn sdp then
        ⟨s.members,
          [Event.log LogLine.recv, Event.setRemoteDescription conn sdp,
            Event.iceCandidates conn, Event.log LogLine.ices] ++
            sendCandidates w s m.Sender (w.iceCandidates conn), Outcome.returned⟩
      else
        ⟨s.members.delete m.Sender,
          [Event.log LogLine.recv, Event.setRemoteDescription conn sdp,
            Event.log LogLine.answerSetFailed, Event.close conn], Outcome.returned⟩

/-- The `*signaling.Candidate` case (`main.go:134-143`). -/
def dispatchCandidate (w : World) (s : Server) (m : Message) : Result :=
  match s.members.find m.Sender with
  | none =>
    ⟨s.members, [Event.log LogLine.recv, Event.log LogLine.connectionFailed], Outcome.returned⟩
  | some conn =>
    match w.deserializeIceCandidate m.Value with
    | none => ⟨s.members, [Event.log LogLine.recv], Outcome.panicked⟩
    | some ice =>
      if w.addIceCandidate conn ice then
        ⟨s.members, [Event.log LogLine.recv, Event.addIceCandidate conn ice], Outcome.returned⟩
      else
        ⟨s.members,
          [Event.log LogLine.recv, Event.addIceCandidate conn ice,
            Event.log LogLine.addIceFailed], Outcome.returned⟩

/-- The method `Server.dispatch` (`main.go:49-145`). -/
def dispatch (w : World) (s : Server) (b : Bytes) : Result :=
  match w.unmarshal b with
  | Unmarshalled.err => ⟨s.members, [Event.log LogLine.unmarshalError], Outcome.returned⟩
  | Unmarshalled.nilMessage => ⟨s.members, [], Outcome.panicked⟩
  | Unmarshalled.message m =>
    if m.Sender = s.id then ⟨s.members, [], Outcome.returned⟩
    else if m.To ≠ "" ∧ m.To ≠ s.id then ⟨s.members, [], Outcome.returned⟩
    else
      match w.get m with
      | none => ⟨s.members, [Event.log LogLine.getError], Outcome.returned⟩
      | some Payload.request => dispatchRequest w s m
      | some (Payload.offer _) => ⟨s.members, [Event.log LogLine.recv], Outcome.returned⟩
      | some (Payload.answer description) => dispatchAnswer w s m description
      | some (Payload.candidate _ _ _) => dispatchCandidate w s m

/-! ## Observations on effect traces -/

/-- The calls `s.Send(to, v)` in a trace, in order. -/
def sendCalls (t : List Event) : List (String × Payload) :=
  t.filterMap (fun e => match e with
    | Event.send recipient v => some (recipient, v)
    | _ => none)

/-- The byte strings handed to the transport (`s.Client.Send(b)`) in a trace, in order. -/
def sentBytes (t : List Event) : List Bytes :=
  t.filterMap (fun e => match e with
    | Event.clientSend b => some b
    | _ => none)

/-- The handles on which `Close` is called in a trace, in order. -/
def closedHandles (t : List Event) : List Handle :=
  t.filterMap (fun e => match e with
    | Event.close h => some h
    | _ => none)

/-- The handles returned by successful `datachan.New` calls in a trace, in order. -/
def createdHandles (t : List Event) : List Handle :=
  t.filterMap (fun e => match e with
    | Event.datachanNew (some h) => some h
    | _ => none)

/-- The keys of the registry. -/
def Registry.keys (r : Registry) : List String :=
  r.map Prod.fst

/-! ## Sample collaborators for concrete runs -/

/-- The four bytes of the JSON literal `null`. -/
def jsonNull : Bytes := [0x6e, 0x75, 0x6c, 0x6c]

/-- A world in which the input decodes to `m` with payload `v` and every engine and
transport call succeeds; the engine returns handle `7` and two candidates. -/
def sampleWorld (m : Message) (v : Payload) : World where
  unmarshal := fun b => if b = jsonNull then Unmarshalled.nilMessage
    else if b = [] then Unmarshalled.err else Unmarshalled.message m
  get := fun _ => some v
  datachanNew := some 7
  offer := fun _ => some ⟨"offer", "v=0"⟩
  serialize := fun d => d.type ++ ":" ++ d.sdp
  marshal := fun e => some [UInt8.ofNat e.recipient.length, 1]
  clientSend := fun _ => true
  deserializeSessionDescription := fun d => if d = "" then none else some ⟨"answer", d⟩
  setRemoteDescription := fun _ _ => true
  iceCandidates := fun _ => [⟨"c1", "data", 0⟩, ⟨"c2", "data", 0⟩]
  deserializeIceCandidate := fun v => if v = "{}" then none else some ⟨v, "data", 0⟩
  addIceCandidate := fun _ _ => true

/-- A Request from `alice`, broadcast. -/
def aliceRequest : Message := ⟨"alice", "", "request", "{}"⟩

/-- The sample world for a Request of `alice`, with `Offer()` failing. -/
def offerFailsWorld : World :=
  { sampleWorld aliceRequest Payload.request with offer := fun _ => none }

/-- The sample world for a Request of `alice`, with `json.Marshal` failing in `Send`. -/
def sendFailsWorld : World :=
  { sampleWorld aliceRequest Payload.request with marshal := fun _ => none }

/-- The sample world for a Request of `alice`, with the engine returning handle `8`. -/
def secondRequestWorld : World :=
  { sampleWorld aliceRequest Payload.request with datachanNew := some 8 }

/-- An Answer from `alice`, addressed to `master`. -/
def aliceAnswer : Message := ⟨"alice", "master", "answer", "{}"⟩

/-- The sample world for an Answer of `alice` with a usable description. -/
def answerWorld : World :=
  sampleWorld aliceAnswer (Payload.answer "v=0 answer")

/-- The sample world for an Answer of `alice`, with `SetRemoteDescription` failing. -/
def answerSetFailsWorld : World :=
  { answerWorld with setRemoteDescription := fun _ _ => false }

/-- A Candidate from `alice` whose value holds no candidate fields: `Get` yields a
`*signaling.Candidate` with zero fields, `webrtc.DeserializeIceCandidate` yields nil. -/
def aliceEmptyCandidate : Message := ⟨"alice", "", "candidate", "{}"⟩

/-- A Request whose sender is the local identity `master`. -/
def selfRequest : Message := ⟨"master", "", "request", "{}"⟩

/-- Two Requests of `alice` in a row, the engine returning handle `7`, then handle `8`. -/
def twoRequests : List (World × Bytes) :=
  [(sampleWorld aliceRequest Payload.request, [1]), (secondRequestWorld, [2])]

/-- A Request from `alice` addressed to another room member, `bob`. -/
def aliceRequestToBob : Message := ⟨"alice", "bob", "request", "{}"⟩

/-- The sample world for a Request of `alice` addressed to `bob`. -/
def requestToBobWorld : World :=
  sampleWorld aliceRequestToBob Payload.request

/-- An Answer from `alice` addressed to another room member, `bob`. -/
def aliceAnswerToBob : Message := ⟨"alice", "bob", "answer", "{}"⟩

/-- A Candidate from `alice` with candidate fields, broadcast. -/
def aliceCandidate : Message := ⟨"alice", "", "candidate", "candidate:1 1 udp"⟩

/-- A Candidate from `alice` with candidate fields, addressed to `bob`. -/
def aliceCandidateToBob : Message := ⟨"alice", "bob", "candidate", "candidate:1 1 udp"⟩

/-- The sample world for an Answer of `alice` whose description does not deserialize. -/
def badAnswerWorld : World :=
  sampleWorld aliceAnswer (Payload.answer "")

/-- The sample world for a Candidate of `alice`. -/
def candidateWorld : World :=
  sampleWorld aliceCandidate (Payload.candidate "candidate:1 1 udp" "data" 0)

/-- The sample world for a Candidate of `alice`, with `AddIceCandidate` failing. -/
def candidateAddFailsWorld : World :=
  { candidateWorld with addIceCandidate := fun _ _ => false }

/-- First sample candidate of the engine. -/
def candidateOne : IceCandidate := ⟨"c1", "data", 0⟩

/-- Second sample candidate of the engine. -/
def candidateTwo : IceCandidate := ⟨"c2", "data", 0⟩

/-- Third sample candidate of the engine. -/
def candidateThree : IceCandidate := ⟨"c3", "data", 0⟩

/-- The sample world for an Answer of `alice` in which the engine reports three candidates
and marshalling the second one fails. -/
def secondSendFailsWorld : World :=
  { answerWorld with
    iceCandidates := fun _ => [candidateOne, candidateTwo, candidateThree]
    marshal := fun e =>
      if e.payload = Payload.candidate "c2" "data" 0 then none
      else some [UInt8.ofNat e.recipient.length, 1] }

/-- The sample world for a Candidate of `alice` addressed to `bob`. -/
def candidateToBobWorld : World :=
  sampleWorld aliceCandidateToBob (Payload.candidate "candidate:1 1 udp" "data" 0)

/-- Calls on the peer-connection engine in a trace: the creation of a handle and every
operation on a handle. -/
def Event.isEngineCall : Event → Bool
  | Event.close _ => true
  | Event.datachanNew _ => true
  | Event.onDataChannel _ => true
  | Event.offer _ => true
  | Event.setRemoteDescription _ _ => true
  | Event.iceCandidates _ => true
  | Event.addIceCandidate _ _ => true
  | _ => false

/-- The handle an event operates on, for the operations on an existing handle. -/
def Event.handle : Event → Option Handle
  | Event.close h => some h
  | Event.onDataChannel h => some h
  | Event.offer h => some h
  | Event.setRemoteDescription h _ => some h
  | Event.iceCandidates h => some h
  | Event.addIceCandidate h _ => some h
  | _ => none

/-! ## Runs of the dispatcher -/

/-- The constructor `New` (`main.go:30-35`): the registry starts empty. -/
def New (id : String) : Server :=
  ⟨id, []⟩

/-- State of the server between two `dispatch` calls: the registry and the trace so far. -/
structure RunState where
  members : Registry
  trace : List Event
  deriving DecidableEq, Repr

/-- One delivery by the transport: the bytes passed to `dispatch` and the outcomes of the
collaborator calls made while they are handled.  A call that panics leaves the registry as
it was, so a run that ends with the process at such a call is a prefix of these runs. -/
def step (id : String) (st : RunState) (d : World × Bytes) : RunState :=
  ⟨(dispatch d.1 ⟨id, st.members⟩ d.2).members,
    st.trace ++ (dispatch d.1 ⟨id, st.members⟩ d.2).trace⟩

/-- The server after a finite sequence of deliveries, starting from `New id`. -/
def run (id : String) (ds : List (World × Bytes)) : RunState :=
  ds.foldl (step id) ⟨(New id).members, []⟩

/-- What one `dispatch` call can do to the registry, with the handles it closes and the
handles the engine returns to it: nothing; or, for one peer `P`, close the handle registered
for `P` (if any) and either remove `P` or map `P` to the handle just created. -/
def StepShape (s : Server) (r : Result) : Prop :=
  (r.members = s.members ∧ closedHandles r.trace = [] ∧ createdHandles r.trace = []) ∨
  ∃ P, closedHandles r.trace = (s.members.find P).toList ∧
    ((r.members = s.members.delete P ∧
        (createdHandles r.trace = [] ∨ ∃ c, createdHandles r.trace = [c])) ∨
      ∃ c, r.members = s.members.insert P c ∧ createdHandles r.trace = [c])

/-- The registry invariant carried along a run: every registered handle was returned by the
engine and never closed, every closed handle was returned by the engine, and no handle is
registered twice. -/
def RunInv (st : RunState) : Prop :=
  (∀ k h, (k, h) ∈ st.members → h ∈ createdHandles st.trace) ∧
  (∀ k h, (k, h) ∈ st.members → h ∉ closedHandles st.trace) ∧
  (∀ h, h ∈ closedHandles st.trace → h ∈ createdHandles st.trace) ∧
  (st.members.map Prod.snd).Nodup

/-! ## The process: `main` -/

/-- The command line of `main`: for each flag the value given, `none` when the flag is
absent. -/
structure Flags where
  room : Option String
  id : Option String
  deriving DecidableEq, Repr

/-- Default of `--room` (`main.go:149`). -/
def defaultRoom : String := "sample"

/-- Default of `--id` (`main.go:150`). -/
def defaultId : String := "**master**"

/-- The start of `main` (`main.go:148-158`): the flags are read with their defaults, an empty
`id` ends the process in `log.Fatalln` (`none`), any other `id` reaches `New(room, id)`. -/
def startup (f : Flags) : Option Server :=
  let id := f.id.getD defaultId
  if id = "" then none else some (New id)

/-- Calls of `main` and of its announcer goroutine on the signaling client, and the fatal
exit. -/
inductive ProcEvent where
  | create
  | sleep
  | bye
  | fatal
  | start
  | stop
  deriving DecidableEq, Repr

/-- How the body of a goroutine stops running: it returns, the process exits inside it
(`log.Fatalln` calls `os.Exit`), or the process ends elsewhere while it is still running. -/
inductive BodyEnd where
  | returned
  | exited
  | abandoned
  deriving DecidableEq, Repr

/-- Deferred calls run when the surrounding function returns; a process exit does not run
them. -/
def runDeferred (e : BodyEnd) (deferred : List ProcEvent) : List ProcEvent :=
  match e with
  | BodyEnd.returned => deferred
  | BodyEnd.exited => []
  | BodyEnd.abandoned => []

/-- The loop of the announcer goroutine (`main.go:161-166`), given the results of the
`s.Create()` calls made before the process ends (`true` for a nil error): a failing
`Create` ends the process in `log.Fatalln`; the loop has no other way out, so when the
results run out the process has ended while the loop was running. -/
def announceLoop : List Bool → List ProcEvent × BodyEnd
  | [] => ([], BodyEnd.abandoned)
  | true :: rest =>
    (ProcEvent.create :: ProcEvent.sleep :: (announceLoop rest).1, (announceLoop rest).2)
  | false :: _ => ([ProcEvent.create, ProcEvent.fatal], BodyEnd.exited)

/-- The events of `n` rounds of the announcer loop in which `Create` succeeds. -/
def successfulRounds : Nat → List ProcEvent
  | 0 => []
  | n + 1 => ProcEvent.create :: ProcEvent.sleep :: successfulRounds n

/-- The announcer goroutine (`main.go:159-167`): `defer s.Bye()`, then the loop. -/
def announcer (creates : List Bool) : List ProcEvent × BodyEnd :=
  ((announceLoop creates).1 ++ runDeferred (announceLoop creates).2 [ProcEvent.bye],
    (announceLoop creates).2)

/-- The main goroutine after the server is created (`main.go:168-171`), when the interrupt
signal arrives: `s.Start()`, the wait on `sig`, then the deferred `s.Stop()` as `main`
returns. -/
def mainOnInterrupt : List ProcEvent :=
  [ProcEvent.start] ++ runDeferred BodyEnd.returned [ProcEvent.stop]

/-- A normal shutdown: every `Create` made before the interrupt succeeded, `main` receives
the signal and returns.  The events of the announcer goroutine and of the main goroutine. -/
def normalShutdown (n : Nat) : List ProcEvent × List ProcEvent :=
  ((announcer (List.replicate n true)).1, mainOnInterrupt)

/-! ## The signaling message codec -/

/-- The double quote character. -/
def dquote : Char := Char.ofNat 34

/-- The backslash character. -/
def backslash : Char := Char.ofNat 92

/-- The opening brace. -/
def lbrace : Char := Char.ofNat 123

/-- The closing brace. -/
def rbrace : Char := Char.ofNat 125

/-- Hexadecimal digit of a value below sixteen, lower case. -/
def hexDigit (d : Nat) : Char :=
  if d < 10 then Char.ofNat (48 + d) else Char.ofNat (87 + d)

/-- Value of a hexadecimal digit. -/
def readHex (c : Char) : Option Nat :=
  if 48 ≤ c.toNat ∧ c.toNat ≤ 57 then some (c.toNat - 48)
  else if 97 ≤ c.toNat ∧ c.toNat ≤ 102 then some (c.toNat - 87)
  else if 65 ≤ c.toNat ∧ c.toNat ≤ 70 then some (c.toNat - 55)
  else none

/-- Modelled from the spec: the JSON text of one character inside a string, as
`json.Marshal` writes it: the quote and the backslash are escaped with a backslash, control
characters as a `u` escape of four hexadecimal digits. -/
def escapeChar (c : Char) : List Char :=
  if c = dquote then [backslash, dquote]
  else if c = backslash then [backslash, backslash]
  else if c.toNat < 32 then
    [backslash, Char.ofNat 117, Char.ofNat 48, Char.ofNat 48, hexDigit (c.toNat / 16),
      hexDigit (c.toNat % 16)]
  else [c]

/-- Modelled from the spec: the JSON text of a string value. -/
def quoteString (s : String) : List Char :=
  dquote :: (s.data.flatMap escapeChar ++ [dquote])

/-- Modelled from the spec: reading a JSON string after its opening quote: the characters of
the string and the text after the closing quote; `none` on an unterminated string, an
unknown escape or a raw control character. -/
def readString : List Char → Option (List Char × List Char)
  | [] => none
  | c :: rest =>
    if c = dquote then some ([], rest)
    else if c = backslash then
      match rest with
      | [] => none
      | e :: rest1 =>
        if e = dquote then (readString rest1).map (fun r => (dquote :: r.1, r.2))
        else if e = backslash then (readString rest1).map (fun r => (backslash :: r.1, r.2))
        else if e = Char.ofNat 117 then
          match rest1 with
          | a :: b :: c2 :: d :: rest2 =>
            match readHex a, readHex b, readHex c2, readHex d with
            | some x, some y, some z, some t =>
              (readString rest2).map
                (fun r => (Char.ofNat (((x * 16 + y) * 16 + z) * 16 + t) :: r.1, r.2))
            | _, _, _, _ => none
          | _ => none
        else none
    else if c.toNat < 32 then none
    else (readString rest).map (fun r => (c :: r.1, r.2))

/-- Decimal digits of `n`, most significant first, with `fuel` bounding their number. -/
def showNatFuel : Nat → Nat → List Char
  | 0, _ => []
  | fuel + 1, n =>
    if n < 10 then [Char.ofNat (48 + n)]
    else showNatFuel fuel (n / 10) ++ [Char.ofNat (48 + n % 10)]

/-- Decimal text of a natural number. -/
def showNat (n : Nat) : List Char :=
  showNatFuel (n + 1) n

/-- Value of a decimal digit. -/
def readDigit (c : Char) : Option Nat :=
  if 48 ≤ c.toNat ∧ c.toNat ≤ 57 then some (c.toNat - 48) else none

/-- Reading decimal digits into an accumulator, up to the first character that is no digit. -/
def readDigits : Nat → List Char → Nat × List Char
  | acc, [] => (acc, [])
  | acc, c :: cs =>
    match readDigit c with
    | some d => readDigits (acc * 10 + d) cs
    | none => (acc, c :: cs)

/-- Reading a decimal natural number: at least one digit. -/
def readNat : List Char → Option (Nat × List Char)
  | [] => none
  | c :: cs =>
    match readDigit c with
    | some _ => some (readDigits 0 (c :: cs))
    | none => none

/-- Modelled from the spec: the JSON text of an integer. -/
def showInt (i : Int) : List Char :=
  if i < 0 then Char.ofNat 45 :: showNat (-i).toNat else showNat i.toNat

/-- Modelled from the spec: reading a JSON integer and the text after it. -/
def readInt : List Char → Option (Int × List Char)
  | [] => none
  | c :: cs =>
    if c = Char.ofNat 45 then (readNat cs).map (fun r => (-(r.1 : Int), r.2))
    else (readNat (c :: cs)).map (fun r => ((r.1 : Int), r.2))

/-- Dropping an expected prefix from a text. -/
def expect : List Char → List Char → Option (List Char)
  | [], cs => some cs
  | _ :: _, [] => none
  | p :: ps, c :: cs => if p = c then expect ps cs else none

/-- The text of an object key with its quotes and colon. -/
def keyText (key : String) : List Char :=
  dquote :: (key.data ++ [dquote, Char.ofNat 58])

/-- Modelled from the spec: the kind tag of a payload, carried explicitly in the envelope. -/
def kindOf : Payload → String
  | Payload.request => "Request"
  | Payload.offer _ => "Offer"
  | Payload.answer _ => "Answer"
  | Payload.candidate _ _ _ => "Candidate"

/-- Modelled from the spec: the value blob of a payload, the JSON object of its fields: the
description of an Offer or Answer; candidate string, sdpMid and sdpMLineIndex of a
Candidate; no field for a Request. -/
def valueText : Payload → List Char
  | Payload.request => [lbrace, rbrace]
  | Payload.offer d => lbrace :: (keyText "description" ++ quoteString d ++ [rbrace])
  | Payload.answer d => lbrace :: (keyText "description" ++ quoteString d ++ [rbrace])
  | Payload.candidate c mid idx =>
    lbrace :: (keyText "candidate" ++ quoteString c ++ Char.ofNat 44 :: keyText "sdpMid" ++
      quoteString mid ++ Char.ofNat 44 :: keyText "sdpMLineIndex" ++ showInt idx ++ [rbrace])

/-- Modelled from the spec: the message `signaling.New(sender, to, v)` builds from an
envelope: sender, recipient, the explicit kind tag and the serialized payload. -/
def Envelope.toMessage (e : Envelope) : Message :=
  ⟨e.sender, e.recipient, kindOf e.payload, String.mk (valueText e.payload)⟩

/-- Reading the value blob of an Offer or an Answer: the description. -/
def readDescription (value : List Char) : Option String :=
  match expect (lbrace :: (keyText "description" ++ [dquote])) value with
  | none => none
  | some rest =>
    match readString rest with
    | none => none
    | some (d, rest1) => if rest1 = [rbrace] then some (String.mk d) else none

/-- Reading the value blob of a Candidate: candidate string, sdpMid and sdpMLineIndex. -/
def readCandidate (value : List Char) : Option Payload :=
  match expect (lbrace :: (keyText "candidate" ++ [dquote])) value with
  | none => none
  | some rest =>
    match readString rest with
    | none => none
    | some (c, rest1) =>
      match expect (Char.ofNat 44 :: (keyText "sdpMid" ++ [dquote])) rest1 with
      | none => none
      | some rest2 =>
        match readString rest2 with
        | none => none
        | some (mid, rest3) =>
          match expect (Char.ofNat 44 :: keyText "sdpMLineIndex") rest3 with
          | none => none
          | some rest4 =>
            match readInt rest4 with
            | none => none
            | some (idx, rest5) =>
              if rest5 = [rbrace] then some (Payload.candidate (String.mk c) (String.mk mid) idx)
              else none

/-- Modelled from the spec: the method `Message.Get`, which is not part of `main.go`: the
kind tag selects how the value blob is read; an unknown kind or a blob that does not read is
an error (`none`). -/
def Message.Get (m : Message) : Option Payload :=
  if m.Kind = "Request" then
    (if m.Value.data = [lbrace, rbrace] then some Payload.request else none)
  else if m.Kind = "Offer" then (readDescription m.Value.data).map Payload.offer
  else if m.Kind = "Answer" then (readDescription m.Value.data).map Payload.answer
  else if m.Kind = "Candidate" then readCandidate m.Value.data
  else none

/-- Modelled from the spec: the JSON text `json.Marshal` writes for a message: an object
with the members `sender`, `to`, `kind` and `value`, the value blob embedded as it is. -/
def marshalText (m : Message) : List Char :=
  lbrace :: (keyText "sender" ++ quoteString m.Sender ++ Char.ofNat 44 :: keyText "to" ++
    quoteString m.To ++ Char.ofNat 44 :: keyText "kind" ++ quoteString m.Kind ++
    Char.ofNat 44 :: keyText "value" ++ m.Value.data ++ [rbrace])

/-- A text without its last character, when that character is the closing brace. -/
def dropClosingBrace (text : List Char) : Option (List Char) :=
  if text.getLast? = some rbrace then some text.dropLast else none

/-- Modelled from the spec: `json.Unmarshal` into a message pointer, on the JSON text: the
literal `null` leaves the pointer nil; an object in the form `marshalText` writes gives its
message, the value kept as raw text; any other text is an error. -/
def unmarshalText (text : List Char) : Unmarshalled :=
  if text = "null".data then Unmarshalled.nilMessage
  else
    match expect (lbrace :: (keyText "sender" ++ [dquote])) text with
    | none => Unmarshalled.err
    | some rest =>
      match readString rest with
      | none => Unmarshalled.err
      | some (sender, rest1) =>
        match expect (Char.ofNat 44 :: (keyText "to" ++ [dquote])) rest1 with
        | none => Unmarshalled.err
        | some rest2 =>
          match readString rest2 with
          | none => Unmarshalled.err
          | some (recipient, rest3) =>
            match expect (Char.ofNat 44 :: (keyText "kind" ++ [dquote])) rest3 with
            | none => Unmarshalled.err
            | some rest4 =>
              match readString rest4 with
              | none => Unmarshalled.err
              | some (kind, rest5) =>
                match expect (Char.ofNat 44 :: keyText "value") rest5 with
                | none => Unmarshalled.err
                | some rest6 =>
                  match dropClosingBrace rest6 with
                  | none => Unmarshalled.err
                  | some value =>
                    Unmarshalled.message
                      ⟨String.mk sender, String.mk recipient, String.mk kind, String.mk value⟩

/-- The UTF-8 bytes of a character. -/
def utf8Char (c : Char) : List UInt8 :=
  if c.toNat < 128 then [UInt8.ofNat c.toNat]
  else if c.toNat < 2048 then
    [UInt8.ofNat (192 + c.toNat / 64), UInt8.ofNat (128 + c.toNat % 64)]
  else if c.toNat < 65536 then
    [UInt8.ofNat (224 + c.toNat / 4096), UInt8.ofNat (128 + c.toNat / 64 % 64),
      UInt8.ofNat (128 + c.toNat % 64)]
  else
    [UInt8.ofNat (240 + c.toNat / 262144), UInt8.ofNat (128 + c.toNat / 4096 % 64),
      UInt8.ofNat (128 + c.toNat / 64 % 64), UInt8.ofNat (128 + c.toNat % 64)]

/-- The UTF-8 bytes of a text. -/
def utf8Text (text : List Char) : Bytes :=
  text.flatMap utf8Char

/-- A continuation byte of UTF-8: `10xxxxxx`. -/
def isContinuation (b : UInt8) : Bool :=
  128 ≤ b.toNat && b.toNat < 192

/-- Reading one UTF-8 character from the front of the bytes: the character and the bytes
after it; `none` on a stray or missing continuation byte. -/
def readUtf8Char : List UInt8 → Option (Char × List UInt8)
  | [] => none
  | b0 :: rest =>
    if b0.toNat < 128 then some (Char.ofNat b0.toNat, rest)
    else if b0.toNat < 192 then none
    else if b0.toNat < 224 then
      match rest with
      | b1 :: rest1 =>
        if isContinuation b1 then
          some (Char.ofNat ((b0.toNat - 192) * 64 + (b1.toNat - 128)), rest1)
        else none
      | _ => none
    else if b0.toNat < 240 then
      match rest with
      | b1 :: b2 :: rest2 =>
        if isContinuation b1 && isContinuation b2 then
          some (Char.ofNat (((b0.toNat - 224) * 64 + (b1.toNat - 128)) * 64 +
            (b2.toNat - 128)), rest2)
        else none
      | _ => none
    else
      match rest with
      | b1 :: b2 :: b3 :: rest3 =>
        if isContinuation b1 && isContinuation b2 && isContinuation b3 then
          some (Char.ofNat ((((b0.toNat - 240) * 64 + (b1.toNat - 128)) * 64 +
            (b2.toNat - 128)) * 64 + (b3.toNat - 128)), rest3)
        else none
      | _ => none

/-- Reading UTF-8 bytes as a text, at most `fuel` characters. -/
def readUtf8Fuel : Nat → List UInt8 → Option (List Char)
  | _, [] => some []
  | 0, _ :: _ => none
  | fuel + 1, b :: bs =>
    match readUtf8Char (b :: bs) with
    | none => none
    | some (c, rest) => (readUtf8Fuel fuel rest).map (fun cs => c :: cs)

/-- Reading UTF-8 bytes as a text; every character takes at least one byte. -/
def readUtf8 (bs : List UInt8) : Option (List Char) :=
  readUtf8Fuel bs.length bs

/-- Modelled from the spec: `json.Marshal` of the message that `signaling.New` builds, as
the bytes `Send` hands to the transport. -/
def jsonMarshal (e : Envelope) : Bytes :=
  utf8Text (marshalText e.toMessage)

/-- Modelled from the spec: `json.Unmarshal` of received bytes into a message pointer. -/
def jsonUnmarshal (b : Bytes) : Unmarshalled :=
  match readUtf8 b with
  | none => Unmarshalled.err
  | some text => unmarshalText text

/-- A world whose codec is the modelled one: `Send` marshals with `jsonMarshal`, `dispatch`
decodes with `jsonUnmarshal` and `Message.Get`; the engine is that of `w`. -/
def codecWorld (w : World) : World :=
  { w with
    marshal := fun e => some (jsonMarshal e)
    unmarshal := jsonUnmarshal
    get := Message.Get }

/-! ## Registry lemmas -/

theorem Registry.find_delete_self (r : Registry) (k : String) :
    (r.delete k).find k = none := by
  induction r with
  | nil => rfl
  | cons e r ih =>
    obtain ⟨k1, h1⟩ := e
    by_cases hk : k1 = k
    · simpa [Registry.delete, Registry.find, List.filter_cons, hk] using ih
    · have hk2 : (k == k1) = false := by simpa using fun h => hk h.symm
      simpa [Registry.delete, Registry.find, List.filter_cons, hk, List.lookup_cons, hk2] using ih

theorem Registry.not_mem_keys_delete (r : Registry) (k : String) :
    k ∉ (r.delete k).keys := by
  simp [Registry.delete, Registry.keys]

theorem Registry.find_insert_self (r : Registry) (k : String) (h : Handle) :
    (r.insert k h).find k = some h := by
  simp [Registry.insert, Registry.find, List.lookup_cons]

theorem Registry.count_keys_insert_self (r : Registry) (k : String) (h : Handle) :
    (r.insert k h).keys.count k = 1 := by
  have h0 : (r.delete k).keys.count k = 0 :=
    List.count_eq_zero.mpr (Registry.not_mem_keys_delete r k)
  simp only [Registry.insert, Registry.keys, List.map_cons, List.count_cons_self]
  simpa [Registry.keys] using h0

/-! ## Trace lemmas -/

theorem closedHandles_eq_nil (t : List Event) (hno : ∀ h, Event.close h ∉ t) :
    closedHandles t = [] := by
  induction t with
  | nil => rfl
  | cons e t ih =>
    have ht := ih (fun h2 hm => hno h2 (List.mem_cons_of_mem _ hm))
    cases e with
    | close h2 => exact absurd (List.mem_cons_self _ _) (hno h2)
    | _ => simpa [closedHandles] using ht

/-! ## Which case of `dispatch` runs -/

theorem dispatch_request_case (w : World) (s : Server) (b : Bytes) (m : Message)
    (hdec : w.unmarshal b = Unmarshalled.message m)
    (hsender : m.Sender ≠ s.id) (hto : m.To = "" ∨ m.To = s.id)
    (hget : w.get m = some Payload.request) :
    dispatch w s b = dispatchRequest w s m := by
  have hgate : ¬ (m.To ≠ "" ∧ m.To ≠ s.id) := by
    rintro ⟨h1, h2⟩
    rcases hto with h | h
    · exact h1 h
    · exact h2 h
  simp only [dispatch, hdec, hget, if_neg hsender, if_neg hgate]

theorem dispatch_answer_case (w : World) (s : Server) (b : Bytes) (m : Message)
    (description : String)
    (hdec : w.unmarshal b = Unmarshalled.message m)
    (hsender : m.Sender ≠ s.id) (hto : m.To = "" ∨ m.To = s.id)
    (hget : w.get m = some (Payload.answer description)) :
    dispatch w s b = dispatchAnswer w s m description := by
  have hgate : ¬ (m.To ≠ "" ∧ m.To ≠ s.id) := by
    rintro ⟨h1, h2⟩
    rcases hto with h | h
    · exact h1 h
    · exact h2 h
  simp only [dispatch, hdec, hget, if_neg hsender, if_neg hgate]

theorem dispatch_candidate_case (w : World) (s : Server) (b : Bytes) (m : Message)
    (c mid : String) (idx : Int)
    (hdec : w.unmarshal b = Unmarshalled.message m)
    (hsender : m.Sender ≠ s.id) (hto : m.To = "" ∨ m.To = s.id)
    (hget : w.get m = some (Payload.candidate c mid idx)) :
    dispatch w s b = dispatchCandidate w s m := by
  have hgate : ¬ (m.To ≠ "" ∧ m.To ≠ s.id) := by
    rintro ⟨h1, h2⟩
    rcases hto with h | h
    · exact h1 h
    · exact h2 h
  simp only [dispatch, hdec, hget, if_neg hsender, if_neg hgate]

theorem dispatch_gate_stops (w : World) (s : Server) (b : Bytes) (m : Message)
    (hdec : w.unmarshal b = Unmarshalled.message m)
    (hgate : m.Sender = s.id ∨ (m.To ≠ "" ∧ m.To ≠ s.id)) :
    dispatch w s b = ⟨s.members, [], Outcome.returned⟩ := by
  by_cases hself : m.Sender = s.id
  · simp only [dispatch, hdec, if_pos hself]
  · rcases hgate with h | h
    · exact absurd h hself
    · simp only [dispatch, hdec, if_neg hself, if_pos h]

theorem passes_gates_of_mem_trace (w : World) (s : Server) (b : Bytes) (m : Message)
    (e : Event) (hdec : w.unmarshal b = Unmarshalled.message m)
    (he : e ∈ (dispatch w s b).trace) :
    m.Sender ≠ s.id ∧ (m.To = "" ∨ m.To = s.id) := by
  by_contra hcon
  have hgate : m.Sender = s.id ∨ (m.To ≠ "" ∧ m.To ≠ s.id) := by
    by_cases hself : m.Sender = s.id
    · exact Or.inl hself
    · refine Or.inr ⟨fun h1 => hcon ⟨hself, Or.inl h1⟩, fun h2 => hcon ⟨hself, Or.inr h2⟩⟩
  rw [dispatch_gate_stops w s b m hdec hgate] at he
  simp at he

/-! ## Request handling -/

/-- C1: a Request from a remote peer `P` addressed here (recipient empty or the local
identity) for which handle creation, `Offer()` and the send succeed makes `dispatch` return
after exactly one `Send`, an Offer to `P` carrying the serialization of the offer of the new
handle; exactly one byte string, the marshalled envelope, reaches the transport; and the
registry is the old one with `P` mapped to the new handle, under exactly one key `P`. -/
theorem dispatch_request_success (w : World) (s : Server) (b : Bytes) (m : Message)
    (conn : Handle) (sdp : SessionDescription) (bytes : Bytes)
    (hdec : w.unmarshal b = Unmarshalled.message m)
    (hsender : m.Sender ≠ s.id) (hto : m.To = "" ∨ m.To = s.id)
    (hget : w.get m = some Payload.request)
    (hnew : w.datachanNew = some conn) (hoffer : w.offer conn = some sdp)
    (hsend : w.marshal (signalingNew s.id m.Sender (Payload.offer (w.serialize sdp)))
      = some bytes) :
    (dispatch w s b).outcome = Outcome.returned ∧
    sendCalls (dispatch w s b).trace = [(m.Sender, Payload.offer (w.serialize sdp))] ∧
    sentBytes (dispatch w s b).trace = [bytes] ∧
    (dispatch w s b).members = s.members.insert m.Sender conn ∧
    (dispatch w s b).members.find m.Sender = some conn ∧
    (dispatch w s b).members.keys.count m.Sender = 1 := by
  rw [dispatch_request_case w s b m hdec hsender hto hget]
  have hres : dispatchRequest w s m =
      ⟨s.members.insert m.Sender conn,
        (Event.log LogLine.recv ::
          (match s.members.find m.Sender with
            | some old => [Event.close old]
            | none => [])) ++
          (Event.datachanNew (some conn) :: Event.onDataChannel conn :: Event.offer conn ::
            ([Event.send m.Sender (Payload.offer (w.serialize sdp)), Event.clientSend bytes] ++
              [Event.log LogLine.offerCompleted])), Outcome.returned⟩ := by
    simp only [dispatchRequest, hnew, hoffer, Send, hsend]
  rw [hres]
  refine ⟨rfl, ?_, ?_, rfl, Registry.find_insert_self _ _ _,
    Registry.count_keys_insert_self _ _ _⟩
  · cases s.members.find m.Sender <;> simp [sendCalls]
  · cases s.members.find m.Sender <;> simp [sentBytes]

/-- Witness for C1: a second Request of `alice`, already registered with handle `3`. -/
theorem dispatch_request_success_witness :
    (dispatch (sampleWorld aliceRequest Payload.request) ⟨"master", [("alice", 3)]⟩ [1]).outcome
      = Outcome.returned ∧
    sendCalls (dispatch (sampleWorld aliceRequest Payload.request)
      ⟨"master", [("alice", 3)]⟩ [1]).trace = [("alice", Payload.offer "offer:v=0")] ∧
    sentBytes (dispatch (sampleWorld aliceRequest Payload.request)
      ⟨"master", [("alice", 3)]⟩ [1]).trace = [[5, 1]] ∧
    (dispatch (sampleWorld aliceRequest Payload.request)
      ⟨"master", [("alice", 3)]⟩ [1]).members = [("alice", 7)] ∧
    (dispatch (sampleWorld aliceRequest Payload.request)
      ⟨"master", [("alice", 3)]⟩ [1]).members.find "alice" = some 7 ∧
    (dispatch (sampleWorld aliceRequest Payload.request)
      ⟨"master", [("alice", 3)]⟩ [1]).members.keys.count "alice" = 1 :=
  dispatch_request_success (sampleWorld aliceRequest Payload.request)
    ⟨"master", [("alice", 3)]⟩ [1] aliceRequest 7 ⟨"offer", "v=0"⟩ [5, 1]
    (by decide) (by decide) (by decide) rfl rfl rfl (by decide)

theorem request_failure_past_gates (w : World) (s : Server) (b : Bytes) (m : Message)
    (hdec : w.unmarshal b = Unmarshalled.message m)
    (hsender : m.Sender ≠ s.id) (hto : m.To = "" ∨ m.To = s.id)
    (hget : w.get m = some Payload.request)
    (hfail : w.datachanNew = none ∨
      (∃ conn, w.datachanNew = some conn ∧ w.offer conn = none) ∨
      (∃ conn sdp, w.datachanNew = some conn ∧ w.offer conn = some sdp ∧
        (Send w s m.Sender (Payload.offer (w.serialize sdp))).2 = false)) :
    (dispatch w s b).outcome = Outcome.returned ∧
    m.Sender ∉ (dispatch w s b).members.keys ∧
    (dispatch w s b).members.find m.Sender = none := by
  rw [dispatch_request_case w s b m hdec hsender hto hget]
  have hmem : (dispatchRequest w s m).members = s.members.delete m.Sender ∧
      (dispatchRequest w s m).outcome = Outcome.returned := by
    rcases hfail with hnew | ⟨conn, hnew, hoffer⟩ | ⟨conn, sdp, hnew, hoffer, hsend⟩
    · simp only [dispatchRequest, hnew, and_self]
    · simp only [dispatchRequest, hnew, hoffer, and_self]
    · have hmar : w.marshal (signalingNew s.id m.Sender (Payload.offer (w.serialize sdp)))
          = none := by
        cases hm : w.marshal (signalingNew s.id m.Sender (Payload.offer (w.serialize sdp))) with
        | none => rfl
        | some bs => simp [Send, hm] at hsend
      simp only [dispatchRequest, hnew, hoffer, Send, hmar, and_self]
  rw [hmem.1, hmem.2]
  exact ⟨rfl, Registry.not_mem_keys_delete _ _, Registry.find_delete_self _ _⟩

theorem request_closes_old_past_gates (w : World) (s : Server) (b : Bytes) (m : Message)
    (h : Handle)
    (hdec : w.unmarshal b = Unmarshalled.message m)
    (hsender : m.Sender ≠ s.id) (hto : m.To = "" ∨ m.To = s.id)
    (hget : w.get m = some Payload.request)
    (hfind : s.members.find m.Sender = some h) :
    (dispatch w s b).trace.count (Event.close h) = 1 ∧
    closedHandles (dispatch w s b).trace = [h] ∧
    ∃ pre post, (dispatch w s b).trace = pre ++ Event.close h :: post ∧
      Event.close h ∉ pre ∧ Event.close h ∉ post ∧
      (∀ r, Event.datachanNew r ∉ pre) ∧ Event.datachanNew w.datachanNew ∈ post := by
  rw [dispatch_request_case w s b m hdec hsender hto hget]
  have key : ∃ post, (dispatchRequest w s m).trace
      = [Event.log LogLine.recv] ++ Event.close h :: Event.datachanNew w.datachanNew :: post ∧
      ∀ h2, Event.close h2 ∉ post := by
    cases hnew : w.datachanNew with
    | none =>
      refine ⟨[Event.log LogLine.datachanNewFailed], ?_, by simp⟩
      simp only [dispatchRequest, hnew, hfind]; rfl
    | some conn =>
      cases hoffer : w.offer conn with
      | none =>
        refine ⟨[Event.onDataChannel conn, Event.offer conn, Event.log LogLine.offerFailed],
          ?_, by simp⟩
        simp only [dispatchRequest, hnew, hoffer, hfind]; rfl
      | some sdp =>
        cases hmar : w.marshal (signalingNew s.id m.Sender (Payload.offer (w.serialize sdp)))
          with
        | none =>
          refine ⟨[Event.onDataChannel conn, Event.offer conn,
            Event.send m.Sender (Payload.offer (w.serialize sdp)),
            Event.log LogLine.sendFailed], ?_, by simp⟩
          simp only [dispatchRequest, hnew, hoffer, hfind, Send, hmar]; rfl
        | some bs =>
          refine ⟨[Event.onDataChannel conn, Event.offer conn,
            Event.send m.Sender (Payload.offer (w.serialize sdp)), Event.clientSend bs,
            Event.log LogLine.offerCompleted], ?_, by simp⟩
          simp only [dispatchRequest, hnew, hoffer, hfind, Send, hmar]; rfl
  obtain ⟨post, htrace, hpost⟩ := key
  have hcl : closedHandles post = [] := closedHandles_eq_nil post hpost
  have hcount : post.count (Event.close h) = 0 := List.count_eq_zero.mpr (hpost h)
  refine ⟨?_, ?_, [Event.log LogLine.recv], Event.datachanNew w.datachanNew :: post, htrace,
    by simp, by simpa using hpost h, by simp, by simp⟩
  · rw [htrace]
    simp [List.count_cons, hcount]
  · rw [htrace]
    simp [closedHandles, List.filterMap_cons] at hcl ⊢
    exact hcl

theorem dispatchRequest_calls (w : World) (s : Server) (m : Message) :
    (∀ r, Event.datachanNew r ∈ (dispatchRequest w s m).trace → r = w.datachanNew) ∧
    (∀ c, Event.offer c ∈ (dispatchRequest w s m).trace → w.datachanNew = some c) ∧
    (∀ p v, Event.send p v ∈ (dispatchRequest w s m).trace →
      ∃ c sdp, w.datachanNew = some c ∧ w.offer c = some sdp ∧
        v = Payload.offer (w.serialize sdp)) := by
  cases hf : s.members.find m.Sender <;> cases hnew : w.datachanNew with
  | none => simp [dispatchRequest, hnew, hf]
  | some conn =>
    cases hoffer : w.offer conn with
    | none => simp [dispatchRequest, hnew, hoffer, hf]
    | some sdp =>
      cases hmar : w.marshal (signalingNew s.id m.Sender (Payload.offer (w.serialize sdp)))
        <;> simp [dispatchRequest, hnew, hoffer, hf, Send, hmar]

/-- C2: for every registry and every Request from `P`, if the `datachan.New` call fails, or
the `Offer()` call on the new handle fails, or the `Send` of the Offer fails, then `dispatch`
returns and `P` is not a key of the registry. -/
theorem dispatch_request_failure_absent (w : World) (s : Server) (b : Bytes) (m : Message)
    (hdec : w.unmarshal b = Unmarshalled.message m)
    (hget : w.get m = some Payload.request)
    (hfail : Event.datachanNew none ∈ (dispatch w s b).trace ∨
      (∃ conn, Event.offer conn ∈ (dispatch w s b).trace ∧ w.offer conn = none) ∨
      (∃ v, Event.send m.Sender v ∈ (dispatch w s b).trace ∧
        (Send w s m.Sender v).2 = false)) :
    (dispatch w s b).outcome = Outcome.returned ∧
    m.Sender ∉ (dispatch w s b).members.keys ∧
    (dispatch w s b).members.find m.Sender = none := by
  have hgates : m.Sender ≠ s.id ∧ (m.To = "" ∨ m.To = s.id) := by
    rcases hfail with h | ⟨_, h, _⟩ | ⟨_, h, _⟩ <;>
      exact passes_gates_of_mem_trace w s b m _ hdec h
  have hcase := dispatch_request_case w s b m hdec hgates.1 hgates.2 hget
  rw [hcase] at hfail
  obtain ⟨hnewc, hofferc, hsendc⟩ := dispatchRequest_calls w s m
  refine request_failure_past_gates w s b m hdec hgates.1 hgates.2 hget ?_
  rcases hfail with h | ⟨conn, h, hnone⟩ | ⟨v, h, hfalse⟩
  · exact Or.inl (hnewc none h).symm
  · exact Or.inr (Or.inl ⟨conn, hofferc conn h, hnone⟩)
  · obtain ⟨c, sdp, h1, h2, h3⟩ := hsendc m.Sender v h
    exact Or.inr (Or.inr ⟨c, sdp, h1, h2, h3 ▸ hfalse⟩)

/-- Witness for C2: `alice` is registered and the send of the Offer fails. -/
theorem dispatch_request_failure_absent_witness :
    (dispatch sendFailsWorld ⟨"master", [("alice", 3), ("bob", 4)]⟩ [1]).outcome
      = Outcome.returned ∧
    "alice" ∉ (dispatch sendFailsWorld ⟨"master", [("alice", 3), ("bob", 4)]⟩ [1]).members.keys ∧
    (dispatch sendFailsWorld ⟨"master", [("alice", 3), ("bob", 4)]⟩ [1]).members.find "alice"
      = none :=
  dispatch_request_failure_absent sendFailsWorld ⟨"master", [("alice", 3), ("bob", 4)]⟩ [1]
    aliceRequest (by decide) rfl
    (Or.inr (Or.inr ⟨Payload.offer "offer:v=0", by decide, by decide⟩))

/-- C3, counterexample: the registered peer `alice`, holding handle `3`, sends a Request
addressed to `bob`; `dispatch` on `master` stops at the recipient gate, its trace is empty
and `Close` is not called on handle `3`. -/
theorem request_for_other_recipient_not_closed :
    requestToBobWorld.unmarshal [1] = Unmarshalled.message aliceRequestToBob ∧
    requestToBobWorld.get aliceRequestToBob = some Payload.request ∧
    Registry.find [("alice", 3)] aliceRequestToBob.Sender = some 3 ∧
    (dispatch requestToBobWorld ⟨"master", [("alice", 3)]⟩ [1]).trace = [] ∧
    ¬ ((dispatch requestToBobWorld ⟨"master", [("alice", 3)]⟩ [1]).trace.count
      (Event.close 3) = 1) := by
  decide

/-- C3, amended: for every Request from a remote peer `P` addressed here (recipient empty or
the local identity) dispatched while the registry holds handle `h` for `P`, the trace of
`dispatch` has exactly one `Close` on `h`, no handle creation precedes it and the
`datachan.New` call follows it, whether creation, offer and send then succeed or not. -/
theorem dispatch_request_closes_old_first (w : World) (s : Server) (b : Bytes) (m : Message)
    (h : Handle)
    (hdec : w.unmarshal b = Unmarshalled.message m)
    (hsender : m.Sender ≠ s.id) (hto : m.To = "" ∨ m.To = s.id)
    (hget : w.get m = some Payload.request)
    (hfind : s.members.find m.Sender = some h) :
    (dispatch w s b).trace.count (Event.close h) = 1 ∧
    closedHandles (dispatch w s b).trace = [h] ∧
    ∃ pre post, (dispatch w s b).trace = pre ++ Event.close h :: post ∧
      Event.close h ∉ pre ∧ Event.close h ∉ post ∧
      (∀ r, Event.datachanNew r ∉ pre) ∧ Event.datachanNew w.datachanNew ∈ post :=
  request_closes_old_past_gates w s b m h hdec hsender hto hget hfind

/-- Witness for C3: `alice` holds handle `3` and `Offer()` on the new handle fails. -/
theorem dispatch_request_closes_old_first_witness :
    (dispatch offerFailsWorld ⟨"master", [("alice", 3)]⟩ [1]).trace.count (Event.close 3) = 1 ∧
    closedHandles (dispatch offerFailsWorld ⟨"master", [("alice", 3)]⟩ [1]).trace = [3] ∧
    ∃ pre post, (dispatch offerFailsWorld ⟨"master", [("alice", 3)]⟩ [1]).trace
        = pre ++ Event.close 3 :: post ∧
      Event.close 3 ∉ pre ∧ Event.close 3 ∉ post ∧
      (∀ r, Event.datachanNew r ∉ pre) ∧
      Event.datachanNew offerFailsWorld.datachanNew ∈ post :=
  dispatch_request_closes_old_first offerFailsWorld ⟨"master", [("alice", 3)]⟩ [1]
    aliceRequest 3 (by decide) (by decide) (by decide) rfl rfl

/-! ## The registry invariant along runs -/

theorem Registry.mem_of_find (r : Registry) (k : String) (h : Handle)
    (hf : r.find k = some h) : (k, h) ∈ r := by
  induction r with
  | nil => simp [Registry.find] at hf
  | cons e r ih =>
    obtain ⟨k1, h1⟩ := e
    by_cases hk : k = k1
    · subst hk
      simp [Registry.find, List.lookup_cons] at hf
      simp [hf]
    · have hk2 : (k == k1) = false := by simpa using hk
      simp only [Registry.find, List.lookup_cons, hk2] at hf
      exact List.mem_cons_of_mem _ (ih hf)

theorem Registry.mem_delete (r : Registry) (P k : String) (h : Handle) :
    (k, h) ∈ r.delete P ↔ (k, h) ∈ r ∧ k ≠ P := by
  simp [Registry.delete]

theorem mem_closedHandles (t : List Event) (h : Handle) :
    h ∈ closedHandles t ↔ Event.close h ∈ t := by
  induction t with
  | nil => simp [closedHandles]
  | cons e t ih =>
    cases e <;> simp_all [closedHandles, List.filterMap_cons]

theorem closedHandles_append (t u : List Event) :
    closedHandles (t ++ u) = closedHandles t ++ closedHandles u := by
  simp [closedHandles, List.filterMap_append]

theorem createdHandles_append (t u : List Event) :
    createdHandles (t ++ u) = createdHandles t ++ createdHandles u := by
  simp [createdHandles, List.filterMap_append]

theorem sendCandidates_no_handle (w : World) (s : Server) (recipient : String)
    (ices : List IceCandidate) :
    closedHandles (sendCandidates w s recipient ices) = [] ∧
    createdHandles (sendCandidates w s recipient ices) = [] := by
  induction ices with
  | nil => exact ⟨rfl, rfl⟩
  | cons ice rest ih =>
    cases hm : w.marshal (signalingNew s.id recipient
      (Payload.candidate ice.candidate ice.sdpMid ice.sdpMLineIndex)) with
    | none => simp [sendCandidates, Send, hm, closedHandles, createdHandles]
    | some bs =>
      have h1 := ih.1
      have h2 := ih.2
      simp only [closedHandles, createdHandles] at h1 h2
      simp [sendCandidates, Send, hm, closedHandles, createdHandles, h1, h2]

theorem stepShape_request (w : World) (s : Server) (m : Message) :
    StepShape s (dispatchRequest w s m) := by
  refine Or.inr ⟨m.Sender, ?_⟩
  cases hnew : w.datachanNew with
  | none =>
    refine ⟨?_, Or.inl ⟨?_, Or.inl ?_⟩⟩
    · cases hf : s.members.find m.Sender <;>
        simp [dispatchRequest, hnew, hf, closedHandles]
    · simp only [dispatchRequest, hnew]
    · cases hf : s.members.find m.Sender <;>
        simp [dispatchRequest, hnew, hf, createdHandles]
  | some conn =>
    cases hoffer : w.offer conn with
    | none =>
      refine ⟨?_, Or.inl ⟨?_, Or.inr ⟨conn, ?_⟩⟩⟩
      · cases hf : s.members.find m.Sender <;>
          simp [dispatchRequest, hnew, hoffer, hf, closedHandles]
      · simp only [dispatchRequest, hnew, hoffer]
      · cases hf : s.members.find m.Sender <;>
          simp [dispatchRequest, hnew, hoffer, hf, createdHandles]
    | some sdp =>
      cases hmar : w.marshal (signalingNew s.id m.Sender (Payload.offer (w.serialize sdp)))
        with
      | none =>
        refine ⟨?_, Or.inl ⟨?_, Or.inr ⟨conn, ?_⟩⟩⟩
        · cases hf : s.members.find m.Sender <;>
            simp [dispatchRequest, hnew, hoffer, Send, hmar, hf, closedHandles]
        · simp only [dispatchRequest, hnew, hoffer, Send, hmar]
        · cases hf : s.members.find m.Sender <;>
            simp [dispatchRequest, hnew, hoffer, Send, hmar, hf, createdHandles]
      | some bs =>
        refine ⟨?_, Or.inr ⟨conn, ?_, ?_⟩⟩
        · cases hf : s.members.find m.Sender <;>
            simp [dispatchRequest, hnew, hoffer, Send, hmar, hf, closedHandles]
        · simp only [dispatchRequest, hnew, hoffer, Send, hmar]
        · cases hf : s.members.find m.Sender <;>
            simp [dispatchRequest, hnew, hoffer, Send, hmar, hf, createdHandles]

theorem stepShape_answer (w : World) (s : Server) (m : Message) (description : String) :
    StepShape s (dispatchAnswer w s m description) := by
  cases hf : s.members.find m.Sender with
  | none =>
    exact Or.inl (by simp [dispatchAnswer, hf, closedHandles, createdHandles])
  | some conn =>
    cases hd : w.deserializeSessionDescription description with
    | none =>
      exact Or.inl (by simp [dispatchAnswer, hf, hd, closedHandles, createdHandles])
    | some sdp =>
      cases hset : w.setRemoteDescription conn sdp with
      | true =>
        have hc := sendCandidates_no_handle w s m.Sender (w.iceCandidates conn)
        refine Or.inl ?_
        simp only [dispatchAnswer, hf, hd, hset, if_true, closedHandles_append,
          createdHandles_append, hc.1, hc.2]
        simp [closedHandles, createdHandles]
      | false =>
        refine Or.inr ⟨m.Sender, ?_, Or.inl ⟨?_, Or.inl ?_⟩⟩
        · simp [dispatchAnswer, hf, hd, hset, closedHandles]
        · simp [dispatchAnswer, hf, hd, hset]
        · simp [dispatchAnswer, hf, hd, hset, createdHandles]

theorem stepShape_candidate (w : World) (s : Server) (m : Message) :
    StepShape s (dispatchCandidate w s m) := by
  refine Or.inl ?_
  cases hf : s.members.find m.Sender with
  | none => simp [dispatchCandidate, hf, closedHandles, createdHandles]
  | some conn =>
    cases hd : w.deserializeIceCandidate m.Value with
    | none => simp [dispatchCandidate, hf, hd, closedHandles, createdHandles]
    | some ice =>
      cases ha : w.addIceCandidate conn ice <;>
        simp [dispatchCandidate, hf, hd, ha, closedHandles, createdHandles]

theorem stepShape_dispatch (w : World) (s : Server) (b : Bytes) :
    StepShape s (dispatch w s b) := by
  unfold dispatch
  split
  · exact Or.inl (by simp [closedHandles, createdHandles])
  · exact Or.inl (by simp [closedHandles, createdHandles])
  · split
    · exact Or.inl (by simp [closedHandles, createdHandles])
    · split
      · exact Or.inl (by simp [closedHandles, createdHandles])
      · split
        · exact Or.inl (by simp [closedHandles, createdHandles])
        · exact stepShape_request w s _
        · exact Or.inl (by simp [closedHandles, createdHandles])
        · exact stepShape_answer w s _ _
        · exact stepShape_candidate w s _

theorem Registry.key_eq_of_nodup (r : Registry) (hd : (r.map Prod.snd).Nodup)
    (k1 k2 : String) (h : Handle) (h1 : (k1, h) ∈ r) (h2 : (k2, h) ∈ r) : k1 = k2 := by
  have := List.inj_on_of_nodup_map hd h1 h2 rfl
  exact congrArg Prod.fst this

theorem runInv_step (st : RunState) (s : Server) (r : Result)
    (hs : s.members = st.members) (hshape : StepShape s r) (hinv : RunInv st)
    (hnodup : (createdHandles (st.trace ++ r.trace)).Nodup) :
    RunInv ⟨r.members, st.trace ++ r.trace⟩ := by
  obtain ⟨ha, hb, hc, hd⟩ := hinv
  rw [createdHandles_append] at hnodup
  rcases hshape with ⟨hm, hcl, hcr⟩ | ⟨P, hcl, hrest⟩
  · refine ⟨?_, ?_, ?_, ?_⟩
    · intro k h hkh
      simp only [createdHandles_append, hcr, List.append_nil]
      exact ha k h (by simpa [hm, hs] using hkh)
    · intro k h hkh
      simp only [closedHandles_append, hcl, List.append_nil]
      exact hb k h (by simpa [hm, hs] using hkh)
    · intro h hh
      simp only [closedHandles_append, hcl, List.append_nil] at hh
      simp only [createdHandles_append, hcr, List.append_nil]
      exact hc h hh
    · simpa [hm, hs] using hd
  · have hold : ∀ h, h ∈ (s.members.find P).toList → (P, h) ∈ st.members := by
      intro h hh
      rw [Option.mem_toList] at hh
      rw [← hs]
      exact Registry.mem_of_find _ _ _ hh
    have hother : ∀ k h, (k, h) ∈ st.members → k ≠ P → h ∉ (s.members.find P).toList := by
      intro k h hkh hk hh
      exact hk (Registry.key_eq_of_nodup st.members hd k P h hkh (hold h hh))
    have hclosed : ∀ h, h ∈ closedHandles (st.trace ++ r.trace) →
        h ∈ createdHandles st.trace := by
      intro h hh
      rw [closedHandles_append, hcl, List.mem_append] at hh
      rcases hh with hh | hh
      · exact hc h hh
      · exact ha P h (hold h hh)
    have hkeep : ∀ k h, (k, h) ∈ st.members.delete P →
        h ∈ createdHandles st.trace ∧ h ∉ closedHandles (st.trace ++ r.trace) := by
      intro k h hkh
      rw [Registry.mem_delete] at hkh
      refine ⟨ha k h hkh.1, ?_⟩
      rw [closedHandles_append, hcl, List.mem_append]
      rintro (hh | hh)
      · exact hb k h hkh.1 hh
      · exact hother k h hkh.1 hkh.2 hh
    have hsub : ((st.members.delete P).map Prod.snd).Nodup :=
      hd.sublist (List.Sublist.map _ (List.filter_sublist _))
    rcases hrest with ⟨hm, _⟩ | ⟨c, hm, hcr⟩
    · rw [hs] at hm
      refine ⟨?_, ?_, ?_, ?_⟩
      · intro k h hkh
        rw [createdHandles_append, List.mem_append]
        exact Or.inl (hkeep k h (by simpa [hm] using hkh)).1
      · intro k h hkh
        exact (hkeep k h (by simpa [hm] using hkh)).2
      · intro h hh
        rw [createdHandles_append, List.mem_append]
        exact Or.inl (hclosed h hh)
      · simpa [hm] using hsub
    · rw [hs] at hm
      rw [hcr] at hnodup
      have hfresh : c ∉ createdHandles st.trace := by
        intro hmem
        exact (List.nodup_append.mp hnodup).2.2 hmem (List.mem_singleton_self c)
      refine ⟨?_, ?_, ?_, ?_⟩
      · intro k h hkh
        rw [createdHandles_append, List.mem_append, hcr]
        simp only [hm, Registry.insert, List.mem_cons, Prod.mk.injEq] at hkh
        rcases hkh with ⟨_, hh⟩ | hkh
        · exact Or.inr (by simp [hh])
        · exact Or.inl (hkeep k h hkh).1
      · intro k h hkh
        simp only [hm, Registry.insert, List.mem_cons, Prod.mk.injEq] at hkh
        rcases hkh with ⟨_, hh⟩ | hkh
        · intro hcls
          exact hfresh (hh ▸ hclosed h hcls)
        · exact (hkeep k h hkh).2
      · intro h hh
        rw [createdHandles_append, List.mem_append]
        exact Or.inl (hclosed h hh)
      · simp only [hm, Registry.insert, List.map_cons, List.nodup_cons]
        refine ⟨?_, hsub⟩
        intro hmem
        obtain ⟨e, he, hce⟩ := List.mem_map.mp hmem
        obtain ⟨k, h⟩ := e
        simp only at hce
        subst hce
        exact hfresh (hkeep k h he).1

theorem run_snoc (id : String) (ds : List (World × Bytes)) (d : World × Bytes) :
    run id (ds ++ [d]) = step id (run id ds) d := by
  simp [run, List.foldl_append]

theorem runInv_run (id : String) (ds : List (World × Bytes))
    (hfresh : (createdHandles (run id ds).trace).Nodup) : RunInv (run id ds) := by
  induction ds using List.reverseRecOn with
  | nil =>
    refine ⟨?_, ?_, ?_, ?_⟩ <;> simp [run, New, closedHandles]
  | append_singleton ds d ih =>
    rw [run_snoc] at hfresh ⊢
    have hpre : (createdHandles (run id ds).trace).Nodup := by
      simp only [step, createdHandles_append] at hfresh
      exact (List.nodup_append.mp hfresh).1
    exact runInv_step (run id ds) ⟨id, (run id ds).members⟩ _ rfl
      (stepShape_dispatch d.1 _ d.2) (ih hpre) hfresh

/-- C4: starting from the empty registry of `New`, after any finite sequence of `dispatch`
calls, on any bytes and with any outcomes of the engine and of the transport, provided the
engine never returns the same handle twice, no handle in the registry has had `Close`
called on it: a handle the dispatcher closes is out of the registry when that call ends. -/
theorem registry_handles_never_closed (id : String) (ds : List (World × Bytes))
    (hfresh : (createdHandles (run id ds).trace).Nodup) :
    ∀ k h, (k, h) ∈ (run id ds).members → Event.close h ∉ (run id ds).trace := by
  intro k h hkh hcl
  exact (runInv_run id ds hfresh).2.1 k h hkh ((mem_closedHandles _ h).mpr hcl)

/-- Witness for C4: after two Requests of `alice` the registry holds her second handle `8`,
the first handle `7` is the only closed one. -/
theorem registry_handles_never_closed_witness :
    (createdHandles (run "master" twoRequests).trace).Nodup ∧
    (run "master" twoRequests).members = [("alice", 8)] ∧
    closedHandles (run "master" twoRequests).trace = [7] ∧
    ∀ k h, (k, h) ∈ (run "master" twoRequests).members →
      Event.close h ∉ (run "master" twoRequests).trace :=
  ⟨by decide, by decide, by decide,
    registry_handles_never_closed "master" twoRequests (by decide)⟩

/-! ## Answer handling -/

theorem sendCandidates_all_sent (w : World) (s : Server) (recipient : String)
    (ices : List IceCandidate)
    (hsends : ∀ ice ∈ ices, (Send w s recipient
      (Payload.candidate ice.candidate ice.sdpMid ice.sdpMLineIndex)).2 = true) :
    sendCalls (sendCandidates w s recipient ices) = ices.map (fun ice =>
      (recipient, Payload.candidate ice.candidate ice.sdpMid ice.sdpMLineIndex)) ∧
    (sentBytes (sendCandidates w s recipient ices)).map some = ices.map (fun ice =>
      w.marshal (signalingNew s.id recipient
        (Payload.candidate ice.candidate ice.sdpMid ice.sdpMLineIndex))) := by
  induction ices with
  | nil => exact ⟨rfl, rfl⟩
  | cons ice rest ih =>
    have hrest := ih (fun i hi => hsends i (List.mem_cons_of_mem _ hi))
    have hhead := hsends ice (List.mem_cons_self _ _)
    cases hm : w.marshal (signalingNew s.id recipient
      (Payload.candidate ice.candidate ice.sdpMid ice.sdpMLineIndex)) with
    | none => simp [Send, hm] at hhead
    | some bs =>
      have h1 := hrest.1
      have h2 := hrest.2
      simp only [sendCalls, sentBytes] at h1 h2
      constructor
      · simp [sendCandidates, Send, hm, sendCalls, h1]
      · simp [sendCandidates, Send, hm, sentBytes, h2]

theorem answer_candidates_past_gates (w : World) (s : Server) (b : Bytes) (m : Message)
    (description : String) (conn : Handle) (sdp : SessionDescription)
    (hdec : w.unmarshal b = Unmarshalled.message m)
    (hsender : m.Sender ≠ s.id) (hto : m.To = "" ∨ m.To = s.id)
    (hget : w.get m = some (Payload.answer description))
    (hfind : s.members.find m.Sender = some conn)
    (hdes : w.deserializeSessionDescription description = some sdp)
    (hset : w.setRemoteDescription conn sdp = true)
    (hsends : ∀ ice ∈ w.iceCandidates conn, (Send w s m.Sender
      (Payload.candidate ice.candidate ice.sdpMid ice.sdpMLineIndex)).2 = true) :
    (dispatch w s b).outcome = Outcome.returned ∧
    sendCalls (dispatch w s b).trace = (w.iceCandidates conn).map (fun ice =>
      (m.Sender, Payload.candidate ice.candidate ice.sdpMid ice.sdpMLineIndex)) ∧
    (sentBytes (dispatch w s b).trace).map some = (w.iceCandidates conn).map (fun ice =>
      w.marshal (signalingNew s.id m.Sender
        (Payload.candidate ice.candidate ice.sdpMid ice.sdpMLineIndex))) ∧
    (dispatch w s b).members = s.members := by
  rw [dispatch_answer_case w s b m description hdec hsender hto hget]
  have hall := sendCandidates_all_sent w s m.Sender (w.iceCandidates conn) hsends
  have h1 := hall.1
  have h2 := hall.2
  simp only [sendCalls, sentBytes] at h1 h2
  refine ⟨?_, ?_, ?_, ?_⟩
  · simp [dispatchAnswer, hfind, hdes, hset]
  · simp [dispatchAnswer, hfind, hdes, hset, sendCalls, h1]
  · simp [dispatchAnswer, hfind, hdes, hset, sentBytes, h2]
  · simp [dispatchAnswer, hfind, hdes, hset]

theorem answer_set_failure_past_gates (w : World) (s : Server) (b : Bytes) (m : Message)
    (description : String) (conn : Handle) (sdp : SessionDescription)
    (hdec : w.unmarshal b = Unmarshalled.message m)
    (hsender : m.Sender ≠ s.id) (hto : m.To = "" ∨ m.To = s.id)
    (hget : w.get m = some (Payload.answer description))
    (hfind : s.members.find m.Sender = some conn)
    (hdes : w.deserializeSessionDescription description = some sdp)
    (hset : w.setRemoteDescription conn sdp = false) :
    (dispatch w s b).outcome = Outcome.returned ∧
    m.Sender ∉ (dispatch w s b).members.keys ∧
    (dispatch w s b).members.find m.Sender = none ∧
    (dispatch w s b).trace.count (Event.close conn) = 1 ∧
    closedHandles (dispatch w s b).trace = [conn] ∧
    (∀ h, Event.iceCandidates h ∉ (dispatch w s b).trace) ∧
    sendCalls (dispatch w s b).trace = [] ∧
    sentBytes (dispatch w s b).trace = [] := by
  rw [dispatch_answer_case w s b m description hdec hsender hto hget]
  have hres : dispatchAnswer w s m description =
      ⟨s.members.delete m.Sender,
        [Event.log LogLine.recv, Event.setRemoteDescription conn sdp,
          Event.log LogLine.answerSetFailed, Event.close conn], Outcome.returned⟩ := by
    simp [dispatchAnswer, hfind, hdes, hset]
  rw [hres]
  refine ⟨rfl, Registry.not_mem_keys_delete _ _, Registry.find_delete_self _ _, ?_, ?_, ?_,
    ?_, ?_⟩
  · simp [List.count_cons]
  · simp [closedHandles]
  · simp
  · simp [sendCalls]
  · simp [sentBytes]

/-- C5: for every Answer from a registered peer `P` whose description deserializes and for
which the `SetRemoteDescription` call on the handle of `P` succeeds, if every send succeeds
then the `Send` calls of `dispatch` are exactly the candidates returned by `IceCandidates()`,
each as a Candidate payload with the same three fields and addressed to `P`, in the order
returned; the byte strings reaching the transport are their marshalled envelopes, in that
order; and the registry is unchanged. -/
theorem dispatch_answer_sends_candidates (w : World) (s : Server) (b : Bytes) (m : Message)
    (description : String) (conn : Handle) (sdp : SessionDescription)
    (hdec : w.unmarshal b = Unmarshalled.message m)
    (hget : w.get m = some (Payload.answer description))
    (hfind : s.members.find m.Sender = some conn)
    (hdes : w.deserializeSessionDescription description = some sdp)
    (hcall : Event.setRemoteDescription conn sdp ∈ (dispatch w s b).trace)
    (hset : w.setRemoteDescription conn sdp = true)
    (hsends : ∀ ice ∈ w.iceCandidates conn, (Send w s m.Sender
      (Payload.candidate ice.candidate ice.sdpMid ice.sdpMLineIndex)).2 = true) :
    (dispatch w s b).outcome = Outcome.returned ∧
    sendCalls (dispatch w s b).trace = (w.iceCandidates conn).map (fun ice =>
      (m.Sender, Payload.candidate ice.candidate ice.sdpMid ice.sdpMLineIndex)) ∧
    (sentBytes (dispatch w s b).trace).map some = (w.iceCandidates conn).map (fun ice =>
      w.marshal (signalingNew s.id m.Sender
        (Payload.candidate ice.candidate ice.sdpMid ice.sdpMLineIndex))) ∧
    (dispatch w s b).members = s.members := by
  have hgates := passes_gates_of_mem_trace w s b m _ hdec hcall
  exact answer_candidates_past_gates w s b m description conn sdp hdec hgates.1 hgates.2
    hget hfind hdes hset hsends

/-- Witness for C5: `alice` holds handle `3`, the engine reports candidates `c1`, `c2`. -/
theorem dispatch_answer_sends_candidates_witness :
    (dispatch answerWorld ⟨"master", [("alice", 3)]⟩ [1]).outcome = Outcome.returned ∧
    sendCalls (dispatch answerWorld ⟨"master", [("alice", 3)]⟩ [1]).trace =
      (answerWorld.iceCandidates 3).map (fun ice =>
        (aliceAnswer.Sender, Payload.candidate ice.candidate ice.sdpMid ice.sdpMLineIndex)) ∧
    (sentBytes (dispatch answerWorld ⟨"master", [("alice", 3)]⟩ [1]).trace).map some =
      (answerWorld.iceCandidates 3).map (fun ice =>
        answerWorld.marshal (signalingNew "master" aliceAnswer.Sender
          (Payload.candidate ice.candidate ice.sdpMid ice.sdpMLineIndex))) ∧
    (dispatch answerWorld ⟨"master", [("alice", 3)]⟩ [1]).members = [("alice", 3)] :=
  dispatch_answer_sends_candidates answerWorld ⟨"master", [("alice", 3)]⟩ [1] aliceAnswer
    "v=0 answer" 3 ⟨"answer", "v=0 answer"⟩ (by decide) rfl rfl (by decide) (by decide) rfl
    (by decide)

/-- C6: for every Answer from a registered peer `P` whose description deserializes, if the
`SetRemoteDescription` call on the handle of `P` fails then `dispatch` returns with `P` not
a key of the registry, exactly one `Close` on that handle, no `IceCandidates()` call and
nothing sent. -/
theorem dispatch_answer_set_failure (w : World) (s : Server) (b : Bytes) (m : Message)
    (description : String) (conn : Handle) (sdp : SessionDescription)
    (hdec : w.unmarshal b = Unmarshalled.message m)
    (hget : w.get m = some (Payload.answer description))
    (hfind : s.members.find m.Sender = some conn)
    (hdes : w.deserializeSessionDescription description = some sdp)
    (hcall : Event.setRemoteDescription conn sdp ∈ (dispatch w s b).trace)
    (hset : w.setRemoteDescription conn sdp = false) :
    (dispatch w s b).outcome = Outcome.returned ∧
    m.Sender ∉ (dispatch w s b).members.keys ∧
    (dispatch w s b).members.find m.Sender = none ∧
    (dispatch w s b).trace.count (Event.close conn) = 1 ∧
    closedHandles (dispatch w s b).trace = [conn] ∧
    (∀ h, Event.iceCandidates h ∉ (dispatch w s b).trace) ∧
    sendCalls (dispatch w s b).trace = [] ∧
    sentBytes (dispatch w s b).trace = [] := by
  have hgates := passes_gates_of_mem_trace w s b m _ hdec hcall
  exact answer_set_failure_past_gates w s b m description conn sdp hdec hgates.1 hgates.2
    hget hfind hdes hset

/-- Witness for C6: `alice` holds handle `3` and `SetRemoteDescription` fails on it. -/
theorem dispatch_answer_set_failure_witness :
    (dispatch answerSetFailsWorld ⟨"master", [("alice", 3)]⟩ [1]).outcome
      = Outcome.returned ∧
    "alice" ∉ (dispatch answerSetFailsWorld ⟨"master", [("alice", 3)]⟩ [1]).members.keys ∧
    (dispatch answerSetFailsWorld ⟨"master", [("alice", 3)]⟩ [1]).members.find "alice"
      = none ∧
    (dispatch answerSetFailsWorld ⟨"master", [("alice", 3)]⟩ [1]).trace.count (Event.close 3)
      = 1 ∧
    closedHandles (dispatch answerSetFailsWorld ⟨"master", [("alice", 3)]⟩ [1]).trace = [3] ∧
    (∀ h, Event.iceCandidates h ∉
      (dispatch answerSetFailsWorld ⟨"master", [("alice", 3)]⟩ [1]).trace) ∧
    sendCalls (dispatch answerSetFailsWorld ⟨"master", [("alice", 3)]⟩ [1]).trace = [] ∧
    sentBytes (dispatch answerSetFailsWorld ⟨"master", [("alice", 3)]⟩ [1]).trace = [] :=
  dispatch_answer_set_failure answerSetFailsWorld ⟨"master", [("alice", 3)]⟩ [1] aliceAnswer
    "v=0 answer" 3 ⟨"answer", "v=0 answer"⟩ (by decide) rfl rfl (by decide) (by decide) rfl

/-! ## Inputs that do not decode -/

theorem dispatch_unmarshal_error_dropped (w : World) (s : Server) (b : Bytes)
    (hdec : w.unmarshal b = Unmarshalled.err) :
    dispatch w s b = ⟨s.members, [Event.log LogLine.unmarshalError], Outcome.returned⟩ := by
  simp only [dispatch, hdec]

theorem dispatch_get_error_dropped (w : World) (s : Server) (b : Bytes) (m : Message)
    (hdec : w.unmarshal b = Unmarshalled.message m)
    (hsender : m.Sender ≠ s.id) (hto : m.To = "" ∨ m.To = s.id)
    (hget : w.get m = none) :
    dispatch w s b = ⟨s.members, [Event.log LogLine.getError], Outcome.returned⟩ := by
  have hgate : ¬ (m.To ≠ "" ∧ m.To ≠ s.id) := by
    rintro ⟨h1, h2⟩
    rcases hto with h | h
    · exact h1 h
    · exact h2 h
  simp only [dispatch, hdec, hget, if_neg hsender, if_neg hgate]

theorem dispatch_nil_message_panics (w : World) (s : Server) (b : Bytes)
    (hdec : w.unmarshal b = Unmarshalled.nilMessage) :
    dispatch w s b = ⟨s.members, [], Outcome.panicked⟩ := by
  simp only [dispatch, hdec]

/-- C7, evaluated on the JSON literal `null`: `json.Unmarshal` reports no error and leaves
the message pointer nil, and `dispatch` does not return: it panics on `m.Sender`, before any
effect. -/
theorem dispatch_json_null_panics :
    (sampleWorld aliceRequest Payload.request).unmarshal jsonNull = Unmarshalled.nilMessage ∧
    dispatch (sampleWorld aliceRequest Payload.request) ⟨"master", [("alice", 3)]⟩ jsonNull
      = ⟨[("alice", 3)], [], Outcome.panicked⟩ := by
  decide

/-! ## Candidate handling -/

theorem dispatch_candidate_nil_panics (w : World) (s : Server) (b : Bytes) (m : Message)
    (c mid : String) (idx : Int) (conn : Handle)
    (hdec : w.unmarshal b = Unmarshalled.message m)
    (hsender : m.Sender ≠ s.id) (hto : m.To = "" ∨ m.To = s.id)
    (hget : w.get m = some (Payload.candidate c mid idx))
    (hfind : s.members.find m.Sender = some conn)
    (hdes : w.deserializeIceCandidate m.Value = none) :
    dispatch w s b = ⟨s.members, [Event.log LogLine.recv], Outcome.panicked⟩ := by
  rw [dispatch_candidate_case w s b m c mid idx hdec hsender hto hget]
  simp only [dispatchCandidate, hfind, hdes]

/-- C8, evaluated on a Candidate of the registered peer `alice` whose value does not
deserialize into an ICE candidate: `dispatch` does not return, it panics on `*ice` after the
`recv` log line; `AddIceCandidate` is not called, nothing is sent and the registry is as
before. -/
theorem dispatch_candidate_undeserializable_panics :
    (sampleWorld aliceEmptyCandidate (Payload.candidate "" "" 0)).deserializeIceCandidate
      aliceEmptyCandidate.Value = none ∧
    dispatch (sampleWorld aliceEmptyCandidate (Payload.candidate "" "" 0))
      ⟨"master", [("alice", 3)]⟩ [1]
      = ⟨[("alice", 3)], [Event.log LogLine.recv], Outcome.panicked⟩ := by
  decide

/-! ## Handles left open by failed Requests -/

theorem dispatchRequest_new_handle_not_closed (w : World) (s : Server) (m : Message)
    (conn : Handle) (hnew : w.datachanNew = some conn)
    (hold : s.members.find m.Sender ≠ some conn) :
    Event.close conn ∉ (dispatchRequest w s m).trace := by
  cases hf : s.members.find m.Sender with
  | none =>
    cases hoffer : w.offer conn with
    | none => simp [dispatchRequest, hnew, hoffer, hf]
    | some sdp =>
      cases hmar : w.marshal (signalingNew s.id m.Sender (Payload.offer (w.serialize sdp)))
        <;> simp [dispatchRequest, hnew, hoffer, hf, Send, hmar]
  | some old =>
    have hne : conn ≠ old := by
      intro h
      exact hold (by rw [hf, h])
    cases hoffer : w.offer conn with
    | none => simp [dispatchRequest, hnew, hoffer, hf, hne]
    | some sdp =>
      cases hmar : w.marshal (signalingNew s.id m.Sender (Payload.offer (w.serialize sdp)))
        <;> simp [dispatchRequest, hnew, hoffer, hf, Send, hmar, hne]

/-- C9, evaluated on a Request of `alice` for which the engine returns handle `7` and then
`Offer()` fails, and on one for which the send of the Offer fails: `alice` is removed from
the registry, but the only `Close` is the one on her old handle `3`; handle `7` is never
closed. -/
theorem dispatch_request_failure_leaves_new_handle_open :
    createdHandles (dispatch offerFailsWorld ⟨"master", [("alice", 3)]⟩ [1]).trace = [7] ∧
    closedHandles (dispatch offerFailsWorld ⟨"master", [("alice", 3)]⟩ [1]).trace = [3] ∧
    Event.close 7 ∉ (dispatch offerFailsWorld ⟨"master", [("alice", 3)]⟩ [1]).trace ∧
    (dispatch offerFailsWorld ⟨"master", [("alice", 3)]⟩ [1]).members = [] ∧
    createdHandles (dispatch sendFailsWorld ⟨"master", [("alice", 3)]⟩ [1]).trace = [7] ∧
    closedHandles (dispatch sendFailsWorld ⟨"master", [("alice", 3)]⟩ [1]).trace = [3] ∧
    Event.close 7 ∉ (dispatch sendFailsWorld ⟨"master", [("alice", 3)]⟩ [1]).trace ∧
    (dispatch sendFailsWorld ⟨"master", [("alice", 3)]⟩ [1]).members = [] := by
  decide

/-! ## The sender gate -/

/-- C10: a decoded message whose sender is the local identity, whatever its payload kind and
its recipient, leaves the registry as it was and has an empty effect trace: no handle is
created or operated on and nothing is sent. -/
theorem dispatch_self_sender_no_effect (w : World) (s : Server) (b : Bytes) (m : Message)
    (hdec : w.unmarshal b = Unmarshalled.message m) (hself : m.Sender = s.id) :
    (dispatch w s b).members = s.members ∧
    (dispatch w s b).trace = [] ∧
    (dispatch w s b).outcome = Outcome.returned := by
  simp only [dispatch, hdec, if_pos hself, and_self]

/-- Witness for C10: a Request carrying the local identity `master` as sender. -/
theorem dispatch_self_sender_no_effect_witness :
    (dispatch (sampleWorld selfRequest Payload.request) ⟨"master", [("alice", 3)]⟩ [1]).members
      = [("alice", 3)] ∧
    (dispatch (sampleWorld selfRequest Payload.request) ⟨"master", [("alice", 3)]⟩ [1]).trace
      = [] ∧
    (dispatch (sampleWorld selfRequest Payload.request) ⟨"master", [("alice", 3)]⟩ [1]).outcome
      = Outcome.returned :=
  dispatch_self_sender_no_effect (sampleWorld selfRequest Payload.request)
    ⟨"master", [("alice", 3)]⟩ [1] selfRequest (by decide) rfl

/-! ## The recipient gate -/

/-- C11: a decoded message whose recipient is non-empty and differs from the local identity,
whatever its payload kind and its sender, leaves the registry as it was and has an empty
effect trace: no handle is created or operated on and nothing is sent. -/
theorem dispatch_other_recipient_no_effect (w : World) (s : Server) (b : Bytes) (m : Message)
    (hdec : w.unmarshal b = Unmarshalled.message m)
    (hto : m.To ≠ "" ∧ m.To ≠ s.id) :
    (dispatch w s b).members = s.members ∧
    (dispatch w s b).trace = [] ∧
    (dispatch w s b).outcome = Outcome.returned := by
  rw [dispatch_gate_stops w s b m hdec (Or.inr hto)]
  exact ⟨rfl, rfl, rfl⟩

/-- Witness for C11: an Answer of the registered peer `alice` addressed to `bob`. -/
theorem dispatch_other_recipient_no_effect_witness :
    (dispatch (sampleWorld aliceAnswerToBob (Payload.answer "v=0 answer"))
      ⟨"master", [("alice", 3)]⟩ [1]).members = [("alice", 3)] ∧
    (dispatch (sampleWorld aliceAnswerToBob (Payload.answer "v=0 answer"))
      ⟨"master", [("alice", 3)]⟩ [1]).trace = [] ∧
    (dispatch (sampleWorld aliceAnswerToBob (Payload.answer "v=0 answer"))
      ⟨"master", [("alice", 3)]⟩ [1]).outcome = Outcome.returned :=
  dispatch_other_recipient_no_effect (sampleWorld aliceAnswerToBob (Payload.answer "v=0 answer"))
    ⟨"master", [("alice", 3)]⟩ [1] aliceAnswerToBob (by decide) (by decide)

/-! ## Messages of peers without a registry entry -/

theorem gated_or_passes (s : Server) (m : Message) :
    (m.Sender = s.id ∨ (m.To ≠ "" ∧ m.To ≠ s.id)) ∨
    (m.Sender ≠ s.id ∧ (m.To = "" ∨ m.To = s.id)) := by
  by_cases h1 : m.Sender = s.id
  · exact Or.inl (Or.inl h1)
  · by_cases h2 : m.To = ""
    · exact Or.inr ⟨h1, Or.inl h2⟩
    · by_cases h3 : m.To = s.id
      · exact Or.inr ⟨h1, Or.inr h3⟩
      · exact Or.inl (Or.inr ⟨h2, h3⟩)

/-- C12: for every Answer or Candidate message from a sender `P` that has no entry in the
registry, `dispatch` returns without any call on the engine (no handle operation, no handle
creation), sends nothing and leaves the registry unchanged, `P` still absent. -/
theorem dispatch_unregistered_no_calls (w : World) (s : Server) (b : Bytes) (m : Message)
    (hdec : w.unmarshal b = Unmarshalled.message m)
    (hkind : (∃ d, w.get m = some (Payload.answer d)) ∨
      (∃ c mid idx, w.get m = some (Payload.candidate c mid idx)))
    (hfind : s.members.find m.Sender = none) :
    (dispatch w s b).outcome = Outcome.returned ∧
    (∀ e ∈ (dispatch w s b).trace, e.isEngineCall = false) ∧
    sendCalls (dispatch w s b).trace = [] ∧
    sentBytes (dispatch w s b).trace = [] ∧
    (dispatch w s b).members = s.members ∧
    (dispatch w s b).members.find m.Sender = none := by
  rcases gated_or_passes s m with hgate | ⟨hsender, hto⟩
  · rw [dispatch_gate_stops w s b m hdec hgate]
    exact ⟨rfl, by simp, rfl, rfl, rfl, hfind⟩
  · rcases hkind with ⟨d, hget⟩ | ⟨c, mid, idx, hget⟩
    · rw [dispatch_answer_case w s b m d hdec hsender hto hget]
      simp [dispatchAnswer, hfind, sendCalls, sentBytes, Event.isEngineCall]
    · rw [dispatch_candidate_case w s b m c mid idx hdec hsender hto hget]
      simp [dispatchCandidate, hfind, sendCalls, sentBytes, Event.isEngineCall]

/-- Witness for C12: a Candidate of `alice` while only `bob` is registered. -/
theorem dispatch_unregistered_no_calls_witness :
    (dispatch candidateWorld ⟨"master", [("bob", 4)]⟩ [1]).outcome = Outcome.returned ∧
    (∀ e ∈ (dispatch candidateWorld ⟨"master", [("bob", 4)]⟩ [1]).trace,
      e.isEngineCall = false) ∧
    sendCalls (dispatch candidateWorld ⟨"master", [("bob", 4)]⟩ [1]).trace = [] ∧
    sentBytes (dispatch candidateWorld ⟨"master", [("bob", 4)]⟩ [1]).trace = [] ∧
    (dispatch candidateWorld ⟨"master", [("bob", 4)]⟩ [1]).members = [("bob", 4)] ∧
    (dispatch candidateWorld ⟨"master", [("bob", 4)]⟩ [1]).members.find "alice" = none :=
  dispatch_unregistered_no_calls candidateWorld ⟨"master", [("bob", 4)]⟩ [1] aliceCandidate
    (by decide) (Or.inr ⟨"candidate:1 1 udp", "data", 0, rfl⟩) (by decide)

/-! ## Answers whose description does not deserialize -/

/-- C13: for every registry, with `P` registered or not, and every Answer from `P` whose
description does not deserialize to a session description, `dispatch` returns with the
registry unchanged, without `SetRemoteDescription` or `Close` or any other call on the
engine, and sends nothing. -/
theorem dispatch_answer_bad_description (w : World) (s : Server) (b : Bytes) (m : Message)
    (description : String)
    (hdec : w.unmarshal b = Unmarshalled.message m)
    (hget : w.get m = some (Payload.answer description))
    (hdes : w.deserializeSessionDescription description = none) :
    (dispatch w s b).outcome = Outcome.returned ∧
    (dispatch w s b).members = s.members ∧
    (∀ h sdp, Event.setRemoteDescription h sdp ∉ (dispatch w s b).trace) ∧
    (∀ h, Event.close h ∉ (dispatch w s b).trace) ∧
    (∀ e ∈ (dispatch w s b).trace, e.isEngineCall = false) ∧
    sendCalls (dispatch w s b).trace = [] ∧
    sentBytes (dispatch w s b).trace = [] := by
  rcases gated_or_passes s m with hgate | ⟨hsender, hto⟩
  · rw [dispatch_gate_stops w s b m hdec hgate]
    simp [sendCalls, sentBytes]
  · rw [dispatch_answer_case w s b m description hdec hsender hto hget]
    cases hf : s.members.find m.Sender <;>
      simp [dispatchAnswer, hf, hdes, sendCalls, sentBytes, Event.isEngineCall]

/-- Witness for C13: an Answer of the registered peer `alice` with an empty description. -/
theorem dispatch_answer_bad_description_witness :
    (dispatch badAnswerWorld ⟨"master", [("alice", 3)]⟩ [1]).outcome = Outcome.returned ∧
    (dispatch badAnswerWorld ⟨"master", [("alice", 3)]⟩ [1]).members = [("alice", 3)] ∧
    (∀ h sdp, Event.setRemoteDescription h sdp ∉
      (dispatch badAnswerWorld ⟨"master", [("alice", 3)]⟩ [1]).trace) ∧
    (∀ h, Event.close h ∉ (dispatch badAnswerWorld ⟨"master", [("alice", 3)]⟩ [1]).trace) ∧
    (∀ e ∈ (dispatch badAnswerWorld ⟨"master", [("alice", 3)]⟩ [1]).trace,
      e.isEngineCall = false) ∧
    sendCalls (dispatch badAnswerWorld ⟨"master", [("alice", 3)]⟩ [1]).trace = [] ∧
    sentBytes (dispatch badAnswerWorld ⟨"master", [("alice", 3)]⟩ [1]).trace = [] :=
  dispatch_answer_bad_description badAnswerWorld ⟨"master", [("alice", 3)]⟩ [1] aliceAnswer ""
    (by decide) rfl (by decide)

/-! ## Confinement to the sender -/

theorem Registry.find_delete_of_ne (r : Registry) (P Q : String) (hne : Q ≠ P) :
    (r.delete P).find Q = r.find Q := by
  induction r with
  | nil => rfl
  | cons e r ih =>
    obtain ⟨k, h⟩ := e
    simp only [Registry.delete, Registry.find] at ih ⊢
    by_cases hk : k = P
    · have hQk : (Q == k) = false := by simpa [hk] using hne
      simp only [List.filter_cons, hk, ne_eq, not_true_eq_false, decide_False,
        Bool.false_eq_true, if_false, List.lookup_cons]
      rw [← hk, hQk, hk]
      exact ih
    · simp only [List.filter_cons, ne_eq, hk, not_false_eq_true, decide_True, if_true,
        List.lookup_cons]
      cases hQ : (Q == k)
      · exact ih
      · rfl

theorem Registry.find_insert_of_ne (r : Registry) (P Q : String) (c : Handle) (hne : Q ≠ P) :
    (r.insert P c).find Q = r.find Q := by
  have hQP : (Q == P) = false := by simpa using hne
  simp only [Registry.insert, Registry.find, List.lookup_cons, hQP]
  exact Registry.find_delete_of_ne r P Q hne

theorem dispatchRequest_members (w : World) (s : Server) (m : Message) :
    (dispatchRequest w s m).members = s.members.delete m.Sender ∨
    ∃ c, (dispatchRequest w s m).members = s.members.insert m.Sender c := by
  cases hnew : w.datachanNew with
  | none => exact Or.inl (by simp only [dispatchRequest, hnew])
  | some conn =>
    cases hoffer : w.offer conn with
    | none => exact Or.inl (by simp only [dispatchRequest, hnew, hoffer])
    | some sdp =>
      cases hmar : w.marshal (signalingNew s.id m.Sender (Payload.offer (w.serialize sdp)))
        with
      | none => exact Or.inl (by simp only [dispatchRequest, hnew, hoffer, Send, hmar])
      | some bs => exact Or.inr ⟨conn, by simp only [dispatchRequest, hnew, hoffer, Send, hmar]⟩

theorem dispatchAnswer_members (w : World) (s : Server) (m : Message) (description : String) :
    (dispatchAnswer w s m description).members = s.members ∨
    (dispatchAnswer w s m description).members = s.members.delete m.Sender := by
  cases hf : s.members.find m.Sender with
  | none => exact Or.inl (by simp only [dispatchAnswer, hf])
  | some conn =>
    cases hd : w.deserializeSessionDescription description with
    | none => exact Or.inl (by simp only [dispatchAnswer, hf, hd])
    | some sdp =>
      cases hset : w.setRemoteDescription conn sdp with
      | true => exact Or.inl (by simp [dispatchAnswer, hf, hd, hset])
      | false => exact Or.inr (by simp [dispatchAnswer, hf, hd, hset])

theorem dispatchCandidate_members (w : World) (s : Server) (m : Message) :
    (dispatchCandidate w s m).members = s.members := by
  cases hf : s.members.find m.Sender with
  | none => simp only [dispatchCandidate, hf]
  | some conn =>
    cases hd : w.deserializeIceCandidate m.Value with
    | none => simp only [dispatchCandidate, hf, hd]
    | some ice =>
      cases ha : w.addIceCandidate conn ice <;> simp [dispatchCandidate, hf, hd, ha]

theorem dispatch_members_cases (w : World) (s : Server) (b : Bytes) (m : Message)
    (hdec : w.unmarshal b = Unmarshalled.message m) :
    (dispatch w s b).members = s.members ∨
    (dispatch w s b).members = s.members.delete m.Sender ∨
    ∃ c, (dispatch w s b).members = s.members.insert m.Sender c := by
  rcases gated_or_passes s m with hgate | ⟨hsender, hto⟩
  · rw [dispatch_gate_stops w s b m hdec hgate]
    exact Or.inl rfl
  · cases hget : w.get m with
    | none =>
      rw [dispatch_get_error_dropped w s b m hdec hsender hto hget]
      exact Or.inl rfl
    | some v =>
      cases v with
      | request =>
        rw [dispatch_request_case w s b m hdec hsender hto hget]
        exact Or.inr (dispatchRequest_members w s m)
      | offer d =>
        have hgate : ¬ (m.To ≠ "" ∧ m.To ≠ s.id) := by
          rintro ⟨h1, h2⟩
          rcases hto with h | h
          · exact h1 h
          · exact h2 h
        exact Or.inl (by simp only [dispatch, hdec, hget, if_neg hsender, if_neg hgate])
      | answer d =>
        rw [dispatch_answer_case w s b m d hdec hsender hto hget]
        rcases dispatchAnswer_members w s m d with h | h
        · exact Or.inl h
        · exact Or.inr (Or.inl h)
      | candidate c mid idx =>
        rw [dispatch_candidate_case w s b m c mid idx hdec hsender hto hget]
        exact Or.inl (dispatchCandidate_members w s m)

theorem sendCandidates_handle_none (w : World) (s : Server) (recipient : String)
    (ices : List IceCandidate) :
    ∀ e ∈ sendCandidates w s recipient ices, e.handle = none := by
  induction ices with
  | nil => simp [sendCandidates]
  | cons ice rest ih =>
    cases hm : w.marshal (signalingNew s.id recipient
      (Payload.candidate ice.candidate ice.sdpMid ice.sdpMLineIndex)) with
    | none => simp [sendCandidates, Send, hm, Event.handle]
    | some bs =>
      intro e he
      simp only [sendCandidates, Send, hm, List.cons_append, List.nil_append, List.mem_cons]
        at he
      rcases he with rfl | rfl | rfl | rfl | he
      · rfl
      · rfl
      · rfl
      · rfl
      · exact ih e he

theorem dispatchRequest_handles (w : World) (s : Server) (m : Message) :
    ∀ e ∈ (dispatchRequest w s m).trace, ∀ h, e.handle = some h →
      s.members.find m.Sender = some h ∨ w.datachanNew = some h := by
  cases hf : s.members.find m.Sender <;> cases hnew : w.datachanNew with
  | none => simp [dispatchRequest, hnew, hf, Event.handle]
  | some conn =>
    cases hoffer : w.offer conn with
    | none => simp [dispatchRequest, hnew, hoffer, hf, Event.handle]
    | some sdp =>
      cases hmar : w.marshal (signalingNew s.id m.Sender (Payload.offer (w.serialize sdp)))
        <;> simp [dispatchRequest, hnew, hoffer, hf, Send, hmar, Event.handle]

theorem dispatchAnswer_handles (w : World) (s : Server) (m : Message) (description : String) :
    ∀ e ∈ (dispatchAnswer w s m description).trace, ∀ h, e.handle = some h →
      s.members.find m.Sender = some h := by
  cases hf : s.members.find m.Sender with
  | none => simp [dispatchAnswer, hf, Event.handle]
  | some conn =>
    cases hd : w.deserializeSessionDescription description with
    | none => simp [dispatchAnswer, hf, hd, Event.handle]
    | some sdp =>
      cases hset : w.setRemoteDescription conn sdp with
      | false => simp [dispatchAnswer, hf, hd, hset, Event.handle]
      | true =>
        intro e he h heh
        simp only [dispatchAnswer, hf, hd, hset, if_true, List.cons_append, List.nil_append,
          List.mem_cons] at he
        rcases he with rfl | rfl | rfl | rfl | he
        · simp [Event.handle] at heh
        · simpa [Event.handle] using heh
        · simpa [Event.handle] using heh
        · simp [Event.handle] at heh
        · rw [sendCandidates_handle_none w s m.Sender _ e he] at heh
          simp at heh

theorem dispatchCandidate_handles (w : World) (s : Server) (m : Message) :
    ∀ e ∈ (dispatchCandidate w s m).trace, ∀ h, e.handle = some h →
      s.members.find m.Sender = some h := by
  cases hf : s.members.find m.Sender with
  | none => simp [dispatchCandidate, hf, Event.handle]
  | some conn =>
    cases hd : w.deserializeIceCandidate m.Value with
    | none => simp [dispatchCandidate, hf, hd, Event.handle]
    | some ice =>
      cases ha : w.addIceCandidate conn ice <;>
        simp [dispatchCandidate, hf, hd, ha, Event.handle]

theorem dispatch_handles (w : World) (s : Server) (b : Bytes) (m : Message)
    (hdec : w.unmarshal b = Unmarshalled.message m) :
    ∀ e ∈ (dispatch w s b).trace, ∀ h, e.handle = some h →
      s.members.find m.Sender = some h ∨ w.datachanNew = some h := by
  rcases gated_or_passes s m with hgate | ⟨hsender, hto⟩
  · rw [dispatch_gate_stops w s b m hdec hgate]
    simp
  · cases hget : w.get m with
    | none =>
      rw [dispatch_get_error_dropped w s b m hdec hsender hto hget]
      simp [Event.handle]
    | some v =>
      cases v with
      | request =>
        rw [dispatch_request_case w s b m hdec hsender hto hget]
        exact dispatchRequest_handles w s m
      | offer d =>
        have hgate : ¬ (m.To ≠ "" ∧ m.To ≠ s.id) := by
          rintro ⟨h1, h2⟩
          rcases hto with h | h
          · exact h1 h
          · exact h2 h
        simp [dispatch, hdec, hget, if_neg hsender, hgate, Event.handle]
      | answer d =>
        rw [dispatch_answer_case w s b m d hdec hsender hto hget]
        exact fun e he h heh => Or.inl (dispatchAnswer_handles w s m d e he h heh)
      | candidate c mid idx =>
        rw [dispatch_candidate_case w s b m c mid idx hdec hsender hto hget]
        exact fun e he h heh => Or.inl (dispatchCandidate_handles w s m e he h heh)

theorem run_handles_distinct (id : String) (ds : List (World × Bytes))
    (hfresh : (createdHandles (run id ds).trace).Nodup) :
    ((run id ds).members.map Prod.snd).Nodup :=
  (runInv_run id ds hfresh).2.2.2

/-- C14: for every registry in which no handle is registered under two keys, every decoded
message with sender `P` and every outcome of the engine and transport calls, the engine
returning a handle that is not in the registry: `dispatch` leaves the entry of every peer
`Q` different from `P` as it was (same presence, same handle) and no event of its trace
operates on a handle registered under a key other than `P`. -/
theorem dispatch_confined_to_sender (w : World) (s : Server) (b : Bytes) (m : Message)
    (hdec : w.unmarshal b = Unmarshalled.message m)
    (hinj : (s.members.map Prod.snd).Nodup)
    (hfresh : ∀ c, w.datachanNew = some c → c ∉ s.members.map Prod.snd) :
    (∀ Q, Q ≠ m.Sender → (dispatch w s b).members.find Q = s.members.find Q) ∧
    (∀ e ∈ (dispatch w s b).trace, ∀ h Q, e.handle = some h → Q ≠ m.Sender →
      (Q, h) ∉ s.members) := by
  constructor
  · intro Q hQ
    rcases dispatch_members_cases w s b m hdec with h | h | ⟨c, h⟩
    · rw [h]
    · rw [h]
      exact Registry.find_delete_of_ne _ _ _ hQ
    · rw [h]
      exact Registry.find_insert_of_ne _ _ _ _ hQ
  · intro e he h Q heh hQ hmem
    rcases dispatch_handles w s b m hdec e he h heh with hf | hnew
    · exact hQ (Registry.key_eq_of_nodup s.members hinj Q m.Sender h hmem
        (Registry.mem_of_find _ _ _ hf))
    · exact hfresh h hnew (List.mem_map.mpr ⟨(Q, h), hmem, rfl⟩)

/-- Witness for C14: `SetRemoteDescription` fails for `alice` while `bob` is registered. -/
theorem dispatch_confined_to_sender_witness :
    (∀ Q, Q ≠ aliceAnswer.Sender →
      (dispatch answerSetFailsWorld ⟨"master", [("alice", 3), ("bob", 4)]⟩ [1]).members.find Q
        = Registry.find [("alice", 3), ("bob", 4)] Q) ∧
    (∀ e ∈ (dispatch answerSetFailsWorld ⟨"master", [("alice", 3), ("bob", 4)]⟩ [1]).trace,
      ∀ h Q, e.handle = some h → Q ≠ aliceAnswer.Sender →
        (Q, h) ∉ [("alice", 3), ("bob", 4)]) :=
  dispatch_confined_to_sender answerSetFailsWorld ⟨"master", [("alice", 3), ("bob", 4)]⟩ [1]
    aliceAnswer (by decide) (by decide) (by decide)

/-! ## A failing send in the candidate loop -/

theorem sendCandidates_first_failure (w : World) (s : Server) (recipient : String)
    (sent rest : List IceCandidate) (c : IceCandidate)
    (hsent : ∀ ice ∈ sent, (Send w s recipient
      (Payload.candidate ice.candidate ice.sdpMid ice.sdpMLineIndex)).2 = true)
    (hfail : (Send w s recipient
      (Payload.candidate c.candidate c.sdpMid c.sdpMLineIndex)).2 = false) :
    sendCalls (sendCandidates w s recipient (sent ++ c :: rest)) =
      (sent ++ [c]).map (fun ice =>
        (recipient, Payload.candidate ice.candidate ice.sdpMid ice.sdpMLineIndex)) ∧
    (sentBytes (sendCandidates w s recipient (sent ++ c :: rest))).map some =
      sent.map (fun ice => w.marshal (signalingNew s.id recipient
        (Payload.candidate ice.candidate ice.sdpMid ice.sdpMLineIndex))) := by
  induction sent with
  | nil =>
    cases hm : w.marshal (signalingNew s.id recipient
      (Payload.candidate c.candidate c.sdpMid c.sdpMLineIndex)) with
    | none => simp [sendCandidates, Send, hm, sendCalls, sentBytes]
    | some bs => simp [Send, hm] at hfail
  | cons ice sent ih =>
    have hrest := ih (fun i hi => hsent i (List.mem_cons_of_mem _ hi))
    have hhead := hsent ice (List.mem_cons_self _ _)
    cases hm : w.marshal (signalingNew s.id recipient
      (Payload.candidate ice.candidate ice.sdpMid ice.sdpMLineIndex)) with
    | none => simp [Send, hm] at hhead
    | some bs =>
      have h1 := hrest.1
      have h2 := hrest.2
      simp only [sendCalls, sentBytes] at h1 h2
      constructor
      · simp [sendCandidates, Send, hm, sendCalls, h1]
      · simp [sendCandidates, Send, hm, sentBytes, h2]

/-- C15: for every Answer from a registered peer `P` whose description deserializes and for
which the `SetRemoteDescription` call succeeds, if the candidate list is `c_1..c_n` and the
send of `c_k` is the first that fails, then the `Send` calls of `dispatch` are exactly
`c_1..c_k`, in that order and once each, nothing is attempted for `c_(k+1)..c_n`, the
transport receives the marshalled envelopes of `c_1..c_(k-1)`, and the registry is
unchanged. -/
theorem dispatch_answer_send_failure_aborts (w : World) (s : Server) (b : Bytes)
    (m : Message) (description : String) (conn : Handle) (sdp : SessionDescription)
    (sent rest : List IceCandidate) (c : IceCandidate)
    (hdec : w.unmarshal b = Unmarshalled.message m)
    (hget : w.get m = some (Payload.answer description))
    (hfind : s.members.find m.Sender = some conn)
    (hdes : w.deserializeSessionDescription description = some sdp)
    (hcall : Event.setRemoteDescription conn sdp ∈ (dispatch w s b).trace)
    (hset : w.setRemoteDescription conn sdp = true)
    (hices : w.iceCandidates conn = sent ++ c :: rest)
    (hsent : ∀ ice ∈ sent, (Send w s m.Sender
      (Payload.candidate ice.candidate ice.sdpMid ice.sdpMLineIndex)).2 = true)
    (hfail : (Send w s m.Sender
      (Payload.candidate c.candidate c.sdpMid c.sdpMLineIndex)).2 = false) :
    (dispatch w s b).outcome = Outcome.returned ∧
    sendCalls (dispatch w s b).trace = (sent ++ [c]).map (fun ice =>
      (m.Sender, Payload.candidate ice.candidate ice.sdpMid ice.sdpMLineIndex)) ∧
    (sentBytes (dispatch w s b).trace).map some = sent.map (fun ice =>
      w.marshal (signalingNew s.id m.Sender
        (Payload.candidate ice.candidate ice.sdpMid ice.sdpMLineIndex))) ∧
    (dispatch w s b).members = s.members := by
  have hgates := passes_gates_of_mem_trace w s b m _ hdec hcall
  rw [dispatch_answer_case w s b m description hdec hgates.1 hgates.2 hget]
  have hall := sendCandidates_first_failure w s m.Sender sent rest c hsent hfail
  have h1 := hall.1
  have h2 := hall.2
  simp only [sendCalls, sentBytes] at h1 h2
  refine ⟨?_, ?_, ?_, ?_⟩
  · simp [dispatchAnswer, hfind, hdes, hset]
  · simp [dispatchAnswer, hfind, hdes, hset, hices, sendCalls, h1]
  · simp [dispatchAnswer, hfind, hdes, hset, hices, sentBytes, h2]
  · simp [dispatchAnswer, hfind, hdes, hset]

/-- Witness for C15: three candidates, the send of the second one fails. -/
theorem dispatch_answer_send_failure_aborts_witness :
    (dispatch secondSendFailsWorld ⟨"master", [("alice", 3)]⟩ [1]).outcome
      = Outcome.returned ∧
    sendCalls (dispatch secondSendFailsWorld ⟨"master", [("alice", 3)]⟩ [1]).trace =
      ([candidateOne] ++ [candidateTwo]).map (fun ice =>
        (aliceAnswer.Sender, Payload.candidate ice.candidate ice.sdpMid ice.sdpMLineIndex)) ∧
    (sentBytes (dispatch secondSendFailsWorld ⟨"master", [("alice", 3)]⟩ [1]).trace).map some =
      [candidateOne].map (fun ice =>
        secondSendFailsWorld.marshal (signalingNew "master" aliceAnswer.Sender
          (Payload.candidate ice.candidate ice.sdpMid ice.sdpMLineIndex))) ∧
    (dispatch secondSendFailsWorld ⟨"master", [("alice", 3)]⟩ [1]).members = [("alice", 3)] :=
  dispatch_answer_send_failure_aborts secondSendFailsWorld ⟨"master", [("alice", 3)]⟩ [1]
    aliceAnswer "v=0 answer" 3 ⟨"answer", "v=0 answer"⟩ [candidateOne]
    [candidateThree] candidateTwo (by decide) rfl rfl (by decide) (by decide) rfl rfl
    (by decide) (by decide)

/-! ## Candidates of registered peers -/

/-- C16, counterexample: the registered peer `alice` sends a Candidate, with a payload that
deserializes, addressed to `bob`; `dispatch` on `master` stops at the recipient gate and
`AddIceCandidate` is not called on her handle `3`. -/
theorem candidate_for_other_recipient_not_added :
    candidateToBobWorld.unmarshal [1] = Unmarshalled.message aliceCandidateToBob ∧
    candidateToBobWorld.get aliceCandidateToBob
      = some (Payload.candidate "candidate:1 1 udp" "data" 0) ∧
    Registry.find [("alice", 3)] aliceCandidateToBob.Sender = some 3 ∧
    candidateToBobWorld.deserializeIceCandidate aliceCandidateToBob.Value
      = some ⟨"candidate:1 1 udp", "data", 0⟩ ∧
    ¬ ((dispatch candidateToBobWorld ⟨"master", [("alice", 3)]⟩ [1]).trace.count
      (Event.addIceCandidate 3 ⟨"candidate:1 1 udp", "data", 0⟩) = 1) := by
  decide

/-- C16, amended: for every Candidate message from a registered remote peer `P` addressed
here (recipient empty or the local identity) whose payload deserializes to a candidate,
`dispatch` returns after exactly one `AddIceCandidate` call, on the handle of `P` and with
that candidate; whether the call succeeds or fails, the registry is unchanged with `P`
mapped to the same handle, no handle is closed and nothing is sent. -/
theorem dispatch_candidate_added_once (w : World) (s : Server) (b : Bytes) (m : Message)
    (c mid : String) (idx : Int) (conn : Handle) (ice : IceCandidate)
    (hdec : w.unmarshal b = Unmarshalled.message m)
    (hsender : m.Sender ≠ s.id) (hto : m.To = "" ∨ m.To = s.id)
    (hget : w.get m = some (Payload.candidate c mid idx))
    (hfind : s.members.find m.Sender = some conn)
    (hdes : w.deserializeIceCandidate m.Value = some ice) :
    (dispatch w s b).outcome = Outcome.returned ∧
    (dispatch w s b).trace.count (Event.addIceCandidate conn ice) = 1 ∧
    (∀ h i, Event.addIceCandidate h i ∈ (dispatch w s b).trace → h = conn ∧ i = ice) ∧
    (dispatch w s b).members = s.members ∧
    (dispatch w s b).members.find m.Sender = some conn ∧
    (∀ h, Event.close h ∉ (dispatch w s b).trace) ∧
    sendCalls (dispatch w s b).trace = [] ∧
    sentBytes (dispatch w s b).trace = [] := by
  rw [dispatch_candidate_case w s b m c mid idx hdec hsender hto hget]
  cases ha : w.addIceCandidate conn ice <;>
    simp [dispatchCandidate, hfind, hdes, ha, sendCalls, sentBytes, List.count_cons]

/-- Witness for C16: `AddIceCandidate` fails on the handle `3` of `alice`. -/
theorem dispatch_candidate_added_once_witness :
    (dispatch candidateAddFailsWorld ⟨"master", [("alice", 3)]⟩ [1]).outcome
      = Outcome.returned ∧
    (dispatch candidateAddFailsWorld ⟨"master", [("alice", 3)]⟩ [1]).trace.count
      (Event.addIceCandidate 3 ⟨"candidate:1 1 udp", "data", 0⟩) = 1 ∧
    (∀ h i, Event.addIceCandidate h i ∈
      (dispatch candidateAddFailsWorld ⟨"master", [("alice", 3)]⟩ [1]).trace →
        h = 3 ∧ i = ⟨"candidate:1 1 udp", "data", 0⟩) ∧
    (dispatch candidateAddFailsWorld ⟨"master", [("alice", 3)]⟩ [1]).members
      = [("alice", 3)] ∧
    (dispatch candidateAddFailsWorld ⟨"master", [("alice", 3)]⟩ [1]).members.find "alice"
      = some 3 ∧
    (∀ h, Event.close h ∉
      (dispatch candidateAddFailsWorld ⟨"master", [("alice", 3)]⟩ [1]).trace) ∧
    sendCalls (dispatch candidateAddFailsWorld ⟨"master", [("alice", 3)]⟩ [1]).trace = [] ∧
    sentBytes (dispatch candidateAddFailsWorld ⟨"master", [("alice", 3)]⟩ [1]).trace = [] :=
  dispatch_candidate_added_once candidateAddFailsWorld ⟨"master", [("alice", 3)]⟩ [1]
    aliceCandidate "candidate:1 1 udp" "data" 0 3 ⟨"candidate:1 1 udp", "data", 0⟩
    (by decide) (by decide) (by decide) rfl rfl (by decide)

/-! ## Startup and shutdown of the process -/

/-- C17, counterexample: with `--id` left at its default the identity is the reserved
`**master**`, the check `id == ""` passes and the server is created with that identity. -/
theorem startup_default_id_starts :
    startup ⟨none, none⟩ = some (New "**master**") ∧ startup ⟨none, none⟩ ≠ none := by
  decide

/-- C17, amended: the process refuses to start exactly when `--id` is given as the empty
string; in every other case, the flag left at its default `**master**` included, `main`
creates the server with the value of `id`. -/
theorem startup_refuses_only_empty_id (f : Flags) :
    (startup f = none ↔ f.id = some "") ∧
    startup f = (if f.id = some "" then none else some (New (f.id.getD defaultId))) := by
  obtain ⟨room, id⟩ := f
  cases id with
  | none => simp [startup, defaultId]
  | some v =>
    by_cases hv : v = ""
    · simp [startup, hv]
    · simp [startup, hv]

theorem announceLoop_no_bye (creates : List Bool) :
    ProcEvent.bye ∉ (announceLoop creates).1 ∧ (announceLoop creates).2 ≠ BodyEnd.returned := by
  induction creates with
  | nil => simp [announceLoop]
  | cons r rest ih =>
    cases r with
    | true => simpa [announceLoop] using ih
    | false => simp [announceLoop]

theorem announcer_never_says_bye (creates : List Bool) :
    ProcEvent.bye ∉ (announcer creates).1 := by
  have h := announceLoop_no_bye creates
  cases hend : (announceLoop creates).2 with
  | returned => exact absurd hend h.2
  | exited => simpa [announcer, hend, runDeferred] using h.1
  | abandoned => simpa [announcer, hend, runDeferred] using h.1

theorem announceLoop_create_error (ok : Nat) (later : List Bool) :
    announceLoop (List.replicate ok true ++ false :: later) =
      (successfulRounds ok ++ [ProcEvent.create, ProcEvent.fatal], BodyEnd.exited) := by
  induction ok with
  | zero => rfl
  | succ n ih =>
    have hstep : announceLoop (List.replicate (n + 1) true ++ false :: later) =
        (ProcEvent.create :: ProcEvent.sleep ::
          (announceLoop (List.replicate n true ++ false :: later)).1,
          (announceLoop (List.replicate n true ++ false :: later)).2) := rfl
    rw [hstep, ih]
    rfl

theorem announcer_fatal_on_create_error (ok : Nat) (later : List Bool) :
    announcer (List.replicate ok true ++ false :: later) =
      (successfulRounds ok ++ [ProcEvent.create, ProcEvent.fatal], BodyEnd.exited) := by
  simp only [announcer, announceLoop_create_error, runDeferred, List.append_nil]

/-- C19, evaluated on a normal shutdown after two successful `Create` announcements: the
announcer goroutine has issued no `Bye` when `main` returns after `Stop`; the deferred
`s.Bye()` never runs, and `main` itself does not call it. -/
theorem normal_shutdown_issues_no_bye :
    (normalShutdown 2).1 = [ProcEvent.create, ProcEvent.sleep, ProcEvent.create,
      ProcEvent.sleep] ∧
    (normalShutdown 2).2 = [ProcEvent.start, ProcEvent.stop] ∧
    (normalShutdown 2).1.count ProcEvent.bye = 0 ∧
    (normalShutdown 2).2.count ProcEvent.bye = 0 := by
  decide

/-! ## What `Send` reports -/

theorem sendCandidates_transport_irrelevant (w : World) (f : Bytes → Bool) (s : Server)
    (recipient : String) (ices : List IceCandidate) :
    sendCandidates { w with clientSend := f } s recipient ices
      = sendCandidates w s recipient ices := by
  induction ices with
  | nil => rfl
  | cons ice rest ih =>
    simp only [sendCandidates, Send] at ih ⊢
    rw [ih]

theorem dispatch_transport_irrelevant (w : World) (f : Bytes → Bool) (s : Server)
    (b : Bytes) : dispatch { w with clientSend := f } s b = dispatch w s b := by
  simp only [dispatch, dispatchRequest, dispatchAnswer, dispatchCandidate, Send,
    sendCandidates_transport_irrelevant]

/-- C20: `Send(to, v)` returns an error exactly when marshalling the envelope fails.  The
envelope has the local identity as sender and `to` as recipient; when marshalling succeeds
the bytes are handed to the transport exactly once and `Send` returns nil.  Neither `Send`
nor `dispatch` depends on whether the transport delivers the bytes, so a failure of the
transport never reaches the send-failure cleanup of `dispatch`. -/
theorem send_reports_only_marshal_failure (w : World) (s : Server) (recipient : String)
    (v : Payload) (f : Bytes → Bool) :
    ((Send w s recipient v).2 = false ↔ w.marshal (signalingNew s.id recipient v) = none) ∧
    (signalingNew s.id recipient v).sender = s.id ∧
    (signalingNew s.id recipient v).recipient = recipient ∧
    sendCalls (Send w s recipient v).1 = [(recipient, v)] ∧
    sentBytes (Send w s recipient v).1 = (w.marshal (signalingNew s.id recipient v)).toList ∧
    Send { w with clientSend := f } s recipient v = Send w s recipient v ∧
    ∀ b, dispatch { w with clientSend := f } s b = dispatch w s b := by
  refine ⟨?_, rfl, rfl, ?_, ?_, rfl, fun b => dispatch_transport_irrelevant w f s b⟩
  · cases hm : w.marshal (signalingNew s.id recipient v) <;> simp [Send, hm]
  · cases hm : w.marshal (signalingNew s.id recipient v) <;> simp [Send, hm, sendCalls]
  · cases hm : w.marshal (signalingNew s.id recipient v) <;> simp [Send, hm, sentBytes]

/-! ## The codec round trip -/

theorem readHex_hexDigit (d : Nat) (h : d < 16) : readHex (hexDigit d) = some d := by
  interval_cases d <;> decide

theorem readDigit_digit (d : Nat) (h : d < 10) : readDigit (Char.ofNat (48 + d)) = some d := by
  interval_cases d <;> decide

theorem digit_ne_minus (d : Nat) (h : d < 10) : Char.ofNat (48 + d) ≠ Char.ofNat 45 := by
  interval_cases d <;> decide

theorem expect_append (p rest : List Char) : expect p (p ++ rest) = some rest := by
  induction p with
  | nil => cases rest <;> rfl
  | cons c p ih => simp [expect, ih]

theorem readString_cons (c : Char) (rest : List Char) :
    readString (c :: rest) =
      if c = dquote then some ([], rest)
      else if c = backslash then
        match rest with
        | [] => none
        | e :: rest1 =>
          if e = dquote then (readString rest1).map (fun r => (dquote :: r.1, r.2))
          else if e = backslash then (readString rest1).map (fun r => (backslash :: r.1, r.2))
          else if e = Char.ofNat 117 then
            match rest1 with
            | a :: b :: c2 :: d :: rest2 =>
              match readHex a, readHex b, readHex c2, readHex d with
              | some x, some y, some z, some t =>
                (readString rest2).map
                  (fun r => (Char.ofNat (((x * 16 + y) * 16 + z) * 16 + t) :: r.1, r.2))
              | _, _, _, _ => none
            | _ => none
          else none
      else if c.toNat < 32 then none
      else (readString rest).map (fun r => (c :: r.1, r.2)) := by
  rw [readString.eq_def]


theorem readString_escapeChar (c : Char) (text : List Char) :
    readString (escapeChar c ++ text) = (readString text).map (fun r => (c :: r.1, r.2)) := by
  have hne : backslash ≠ dquote := by decide
  by_cases h1 : c = dquote
  · subst h1
    have hesc : escapeChar dquote = [backslash, dquote] := by decide
    rw [hesc, List.cons_append, List.cons_append, List.nil_append, readString_cons]
    simp [hne]
  · by_cases h2 : c = backslash
    · subst h2
      have hesc : escapeChar backslash = [backslash, backslash] := by decide
      rw [hesc, List.cons_append, List.cons_append, List.nil_append, readString_cons]
      simp [hne]
    · by_cases h3 : c.toNat < 32
      · have hu1 : Char.ofNat 117 ≠ dquote := by decide
        have hu2 : Char.ofNat 117 ≠ backslash := by decide
        have hz : readHex (Char.ofNat 48) = some 0 := by decide
        have ha := readHex_hexDigit (c.toNat / 16) (by omega)
        have hb := readHex_hexDigit (c.toNat % 16) (by omega)
        have hval : c.toNat / 16 * 16 + c.toNat % 16 = c.toNat := by
          omega
        have hesc : escapeChar c = [backslash, Char.ofNat 117, Char.ofNat 48, Char.ofNat 48,
            hexDigit (c.toNat / 16), hexDigit (c.toNat % 16)] := by
          simp [escapeChar, h1, h2, h3]
        rw [hesc]
        simp only [List.cons_append, List.nil_append]
        rw [readString_cons]
        simp [hne, hu1, hu2, hz, ha, hb, hval]
      · have hesc : escapeChar c = [c] := by simp [escapeChar, h1, h2, h3]
        rw [hesc, List.cons_append, List.nil_append, readString_cons]
        simp [h1, h2, h3]

theorem readString_quoted (s rest : List Char) :
    readString (s.flatMap escapeChar ++ dquote :: rest) = some (s, rest) := by
  induction s with
  | nil =>
    simp only [List.flatMap_nil, List.nil_append]
    rw [readString_cons]
    simp
  | cons c s ih =>
    rw [List.flatMap_cons, List.append_assoc, readString_escapeChar, ih]
    rfl

theorem readDigits_showNatFuel (fuel : Nat) :
    ∀ n, n < fuel → ∀ rest, readDigits 0 (showNatFuel fuel n ++ rest) = readDigits n rest := by
  induction fuel with
  | zero => intro n hn; omega
  | succ f ih =>
    intro n hn rest
    by_cases h10 : n < 10
    · simp [showNatFuel, h10, readDigits, readDigit_digit n h10]
    · have hdiv : n / 10 < f := by omega
      have hmod : n % 10 < 10 := Nat.mod_lt _ (by decide)
      simp only [showNatFuel, if_neg h10, List.append_assoc, List.singleton_append]
      rw [ih (n / 10) hdiv]
      simp only [readDigits, readDigit_digit (n % 10) hmod]
      congr 1
      omega

theorem showNatFuel_head (fuel : Nat) :
    ∀ n, n < fuel → ∃ d cs, d < 10 ∧ showNatFuel fuel n = Char.ofNat (48 + d) :: cs := by
  induction fuel with
  | zero => intro n hn; omega
  | succ f ih =>
    intro n hn
    by_cases h10 : n < 10
    · exact ⟨n, [], h10, by simp [showNatFuel, h10]⟩
    · obtain ⟨d, cs, hd, hcs⟩ := ih (n / 10) (by omega)
      exact ⟨d, cs ++ [Char.ofNat (48 + n % 10)], hd, by simp [showNatFuel, h10, hcs]⟩

theorem readNat_showNat (n : Nat) (rest : List Char)
    (hrest : readDigits n rest = (n, rest)) :
    readNat (showNat n ++ rest) = some (n, rest) := by
  obtain ⟨d, cs, hd, hcs⟩ := showNatFuel_head (n + 1) n (Nat.lt_succ_self n)
  have hread := readDigits_showNatFuel (n + 1) n (Nat.lt_succ_self n) rest
  simp only [showNat] at hread ⊢
  rw [hcs] at hread ⊢
  simp only [List.cons_append, readNat, readDigit_digit d hd]
  rw [← List.cons_append, hread, hrest]

theorem readInt_showInt (i : Int) (rest : List Char)
    (hrest : ∀ n, readDigits n rest = (n, rest)) :
    readInt (showInt i ++ rest) = some (i, rest) := by
  by_cases hneg : i < 0
  · simp only [showInt, if_pos hneg, List.cons_append, readInt, if_pos rfl,
      readNat_showNat _ rest (hrest _), Option.map_some']
    have : ((-i).toNat : Int) = -i := Int.toNat_of_nonneg (by omega)
    simp [this]
  · obtain ⟨d, cs, hd, hcs⟩ := showNatFuel_head (i.toNat + 1) i.toNat (Nat.lt_succ_self _)
    have hrn := readNat_showNat i.toNat rest (hrest _)
    simp only [showInt, if_neg hneg]
    simp only [showNat] at hrn ⊢
    rw [hcs] at hrn ⊢
    simp only [List.cons_append, readInt, if_neg (digit_ne_minus d hd)]
    rw [List.cons_append] at hrn
    rw [hrn]
    have : (i.toNat : Int) = i := Int.toNat_of_nonneg (by omega)
    simp [this]

theorem readDigits_closing (n : Nat) : readDigits n [rbrace] = (n, [rbrace]) := by
  have h : readDigit rbrace = none := by decide
  simp [readDigits, h]

theorem readDescription_valueText (d : String) :
    readDescription (lbrace :: (keyText "description" ++ quoteString d ++ [rbrace]))
      = some d := by
  have hshape : lbrace :: (keyText "description" ++ quoteString d ++ [rbrace]) =
      (lbrace :: (keyText "description" ++ [dquote])) ++
        (d.data.flatMap escapeChar ++ dquote :: [rbrace]) := by
    simp [quoteString]
  rw [hshape]
  simp only [readDescription, expect_append, readString_quoted, if_true]

theorem readCandidate_valueText (c mid : String) (idx : Int) :
    readCandidate (valueText (Payload.candidate c mid idx))
      = some (Payload.candidate c mid idx) := by
  have hshape : valueText (Payload.candidate c mid idx) =
      (lbrace :: (keyText "candidate" ++ [dquote])) ++
        (c.data.flatMap escapeChar ++ dquote ::
          ((Char.ofNat 44 :: (keyText "sdpMid" ++ [dquote])) ++
            (mid.data.flatMap escapeChar ++ dquote ::
              ((Char.ofNat 44 :: keyText "sdpMLineIndex") ++ (showInt idx ++ [rbrace]))))) := by
    simp [valueText, quoteString]
  rw [hshape]
  simp only [readCandidate, expect_append, readString_quoted,
    readInt_showInt idx [rbrace] readDigits_closing, if_true]

theorem get_toMessage (e : Envelope) : e.toMessage.Get = some e.payload := by
  obtain ⟨sender, recipient, payload⟩ := e
  cases payload with
  | request => rfl
  | offer d =>
    have h1 : ("Offer" : String) ≠ "Request" := by decide
    simp only [Message.Get, Envelope.toMessage, kindOf, valueText, if_neg h1, if_true,
      readDescription_valueText, Option.map_some']
  | answer d =>
    have h1 : ("Answer" : String) ≠ "Request" := by decide
    have h2 : ("Answer" : String) ≠ "Offer" := by decide
    simp only [Message.Get, Envelope.toMessage, kindOf, valueText, if_neg h1, if_neg h2,
      if_true, readDescription_valueText, Option.map_some']
  | candidate c mid idx =>
    have h1 : ("Candidate" : String) ≠ "Request" := by decide
    have h2 : ("Candidate" : String) ≠ "Offer" := by decide
    have h3 : ("Candidate" : String) ≠ "Answer" := by decide
    simp only [Message.Get, Envelope.toMessage, kindOf, if_neg h1, if_neg h2, if_neg h3,
      if_true, readCandidate_valueText]

theorem dropClosingBrace_append (text : List Char) :
    dropClosingBrace (text ++ [rbrace]) = some text := by
  simp [dropClosingBrace]

theorem unmarshalText_marshalText (m : Message) :
    unmarshalText (marshalText m) = Unmarshalled.message m := by
  have hshape : marshalText m =
      (lbrace :: (keyText "sender" ++ [dquote])) ++
        (m.Sender.data.flatMap escapeChar ++ dquote ::
          ((Char.ofNat 44 :: (keyText "to" ++ [dquote])) ++
            (m.To.data.flatMap escapeChar ++ dquote ::
              ((Char.ofNat 44 :: (keyText "kind" ++ [dquote])) ++
                (m.Kind.data.flatMap escapeChar ++ dquote ::
                  ((Char.ofNat 44 :: keyText "value") ++ (m.Value.data ++ [rbrace]))))))) := by
    simp [marshalText, quoteString]
  have hnull : marshalText m ≠ "null".data := by
    rw [hshape]
    intro h
    have := congrArg List.head? h
    simp at this
    exact absurd this (by decide)
  rw [unmarshalText, if_neg hnull, hshape]
  simp only [expect_append, readString_quoted, dropClosingBrace_append]


theorem char_toNat_lt (c : Char) : c.toNat < 1114112 := by
  have h := c.valid
  simp only [UInt32.isValidChar, Nat.isValidChar] at h
  have hv : c.toNat = c.val.toNat := rfl
  omega

theorem toNat_byte (n : Nat) (h : n < 256) : (UInt8.ofNat n).toNat = n :=
  UInt8.toNat_ofNat_of_lt h

theorem isContinuation_byte (n : Nat) (h : n < 64) :
    isContinuation (UInt8.ofNat (128 + n)) = true := by
  simp only [isContinuation, toNat_byte (128 + n) (by omega)]
  simp
  omega

theorem readUtf8Char_utf8Char (c : Char) (bs : List UInt8) :
    readUtf8Char (utf8Char c ++ bs) = some (c, bs) := by
  have hlt := char_toNat_lt c
  by_cases h1 : c.toNat < 128
  · have henc : utf8Char c = [UInt8.ofNat c.toNat] := by simp [utf8Char, h1]
    rw [henc]
    simp [readUtf8Char, toNat_byte c.toNat (by omega), h1]
  · by_cases h2 : c.toNat < 2048
    · have henc : utf8Char c =
          [UInt8.ofNat (192 + c.toNat / 64), UInt8.ofNat (128 + c.toNat % 64)] := by
        simp [utf8Char, h1, h2]
      have hb0 := toNat_byte (192 + c.toNat / 64) (by omega)
      have hb1 := toNat_byte (128 + c.toNat % 64) (by omega)
      have hc1 := isContinuation_byte (c.toNat % 64) (by omega)
      have hval : (192 + c.toNat / 64 - 192) * 64 + (128 + c.toNat % 64 - 128) = c.toNat := by
        omega
      have g1 : ¬ 192 + c.toNat / 64 < 128 := by omega
      have g2 : ¬ 192 + c.toNat / 64 < 192 := by omega
      have g3 : 192 + c.toNat / 64 < 224 := by omega
      rw [henc]
      simp only [List.cons_append, List.nil_append, readUtf8Char, hb0, hb1, hc1, hval,
        if_neg g1, if_neg g2, if_pos g3, if_true, Char.ofNat_toNat]
    · by_cases h3 : c.toNat < 65536
      · have henc : utf8Char c =
            [UInt8.ofNat (224 + c.toNat / 4096), UInt8.ofNat (128 + c.toNat / 64 % 64),
              UInt8.ofNat (128 + c.toNat % 64)] := by
          simp [utf8Char, h1, h2, h3]
        have hb0 := toNat_byte (224 + c.toNat / 4096) (by omega)
        have hb1 := toNat_byte (128 + c.toNat / 64 % 64) (by omega)
        have hb2 := toNat_byte (128 + c.toNat % 64) (by omega)
        have hc1 := isContinuation_byte (c.toNat / 64 % 64) (by omega)
        have hc2 := isContinuation_byte (c.toNat % 64) (by omega)
        have hval : ((224 + c.toNat / 4096 - 224) * 64 + (128 + c.toNat / 64 % 64 - 128)) * 64
            + (128 + c.toNat % 64 - 128) = c.toNat := by
          omega
        have g1 : ¬ 224 + c.toNat / 4096 < 128 := by omega
        have g2 : ¬ 224 + c.toNat / 4096 < 192 := by omega
        have g3 : ¬ 224 + c.toNat / 4096 < 224 := by omega
        have g4 : 224 + c.toNat / 4096 < 240 := by omega
        rw [henc]
        simp only [List.cons_append, List.nil_append, readUtf8Char, hb0, hb1, hb2, hc1, hc2,
          hval, if_neg g1, if_neg g2, if_neg g3, if_pos g4, Bool.and_self, if_true,
          Char.ofNat_toNat]
      · have henc : utf8Char c =
            [UInt8.ofNat (240 + c.toNat / 262144), UInt8.ofNat (128 + c.toNat / 4096 % 64),
              UInt8.ofNat (128 + c.toNat / 64 % 64), UInt8.ofNat (128 + c.toNat % 64)] := by
          simp [utf8Char, h1, h2, h3]
        have hb0 := toNat_byte (240 + c.toNat / 262144) (by omega)
        have hb1 := toNat_byte (128 + c.toNat / 4096 % 64) (by omega)
        have hb2 := toNat_byte (128 + c.toNat / 64 % 64) (by omega)
        have hb3 := toNat_byte (128 + c.toNat % 64) (by omega)
        have hc1 := isContinuation_byte (c.toNat / 4096 % 64) (by omega)
        have hc2 := isContinuation_byte (c.toNat / 64 % 64) (by omega)
        have hc3 := isContinuation_byte (c.toNat % 64) (by omega)
        have hval : (((240 + c.toNat / 262144 - 240) * 64 + (128 + c.toNat / 4096 % 64 - 128))
            * 64 + (128 + c.toNat / 64 % 64 - 128)) * 64 + (128 + c.toNat % 64 - 128)
            = c.toNat := by
          omega
        have g1 : ¬ 240 + c.toNat / 262144 < 128 := by omega
        have g2 : ¬ 240 + c.toNat / 262144 < 192 := by omega
        have g3 : ¬ 240 + c.toNat / 262144 < 224 := by omega
        have g4 : ¬ 240 + c.toNat / 262144 < 240 := by omega
        rw [henc]
        simp only [List.cons_append, List.nil_append, readUtf8Char, hb0, hb1, hb2, hb3, hc1,
          hc2, hc3, hval, if_neg g1, if_neg g2, if_neg g3, if_neg g4, Bool.and_self, if_true,
          Char.ofNat_toNat]

theorem utf8Char_cons (c : Char) : ∃ b bs, utf8Char c = b :: bs := by
  unfold utf8Char
  split
  · exact ⟨_, _, rfl⟩
  · split
    · exact ⟨_, _, rfl⟩
    · split
      · exact ⟨_, _, rfl⟩
      · exact ⟨_, _, rfl⟩

theorem readUtf8Fuel_utf8Text (text : List Char) :
    ∀ fuel, text.length ≤ fuel → readUtf8Fuel fuel (utf8Text text) = some text := by
  induction text with
  | nil =>
    intro fuel _
    cases fuel <;> rfl
  | cons c text ih =>
    intro fuel hfuel
    cases fuel with
    | zero => simp at hfuel
    | succ f =>
      obtain ⟨b, bs, hb⟩ := utf8Char_cons c
      have hchar := readUtf8Char_utf8Char c (utf8Text text)
      have hrest := ih f (by simpa using hfuel)
      have hshape : utf8Text (c :: text) = b :: (bs ++ utf8Text text) := by
        simp [utf8Text, hb]
      rw [hb, List.cons_append] at hchar
      rw [hshape]
      simp only [readUtf8Fuel, hchar, hrest, Option.map_some']

theorem length_le_utf8Text (text : List Char) : text.length ≤ (utf8Text text).length := by
  induction text with
  | nil => simp [utf8Text]
  | cons c text ih =>
    obtain ⟨b, bs, hb⟩ := utf8Char_cons c
    simp only [utf8Text, List.flatMap_cons, hb, List.cons_append, List.length_cons,
      List.length_append] at ih ⊢
    omega

theorem readUtf8_utf8Text (text : List Char) : readUtf8 (utf8Text text) = some text :=
  readUtf8Fuel_utf8Text text _ (length_le_utf8Text text)

theorem jsonUnmarshal_jsonMarshal (e : Envelope) :
    jsonUnmarshal (jsonMarshal e) = Unmarshalled.message e.toMessage := by
  simp only [jsonUnmarshal, jsonMarshal, readUtf8_utf8Text, unmarshalText_marshalText]


theorem jsonUnmarshal_null : jsonUnmarshal jsonNull = Unmarshalled.nilMessage := by
  decide

/-- C18: for every sender, recipient and payload of each kind, `Send` with the modelled codec
hands the transport bytes that decode, as `dispatch` decodes them (`json.Unmarshal`, then
`Get`), to a message with the original sender, recipient and kind tag whose payload is the
original payload, field for field. -/
theorem codec_round_trip (w : World) (s : Server) (recipient : String) (v : Payload) :
    ∃ b m,
      Send (codecWorld w) s recipient v
        = ([Event.send recipient v, Event.clientSend b], true) ∧
      (codecWorld w).unmarshal b = Unmarshalled.message m ∧
      m.Sender = s.id ∧ m.To = recipient ∧ m.Kind = kindOf v ∧
      (codecWorld w).get m = some v := by
  have hm : (codecWorld w).marshal = fun e => some (jsonMarshal e) := rfl
  have hu : (codecWorld w).unmarshal = jsonUnmarshal := rfl
  have hg : (codecWorld w).get = Message.Get := rfl
  refine ⟨jsonMarshal (signalingNew s.id recipient v),
    (signalingNew s.id recipient v).toMessage, ?_, ?_, rfl, rfl, rfl, ?_⟩
  · simp only [Send, hm]
  · rw [hu]
    exact jsonUnmarshal_jsonMarshal _
  · rw [hg]
    exact get_toMessage (signalingNew s.id recipient v)

end Rtcdc
